import Mathlib

/-!
Verification of `Analysis/Standard_shocks/plot_standard_shocks.py`.

The script is embedded shallowly: the configuration surface (shock list,
variation suffixes, model-version folders, variable lists) becomes a `Config`
structure, the filesystem becomes a `String → Bool` oracle, the combination
table loop becomes an explicit state-passing fold, and the external
`dreamtools` database reader is modelled as handle creation tagged with a
fresh identifier per `dt.Gdx(...)` call (so that reuse versus reopening is
observable).  Fallible Python operations (a `list[0] = ...` assignment on an
empty list, a pandas attribute access on a column-less dataframe) are
modelled in `Except`.
-/

namespace StdShocks

/-- `divide_chunks(l, n)` from the source: yields `l[i:i+n]` for
`i = 0, n, 2n, ...`.  For `n = 0` Python's `range(0, len(l), 0)` raises;
every call site uses a positive `n` and the theorems assume `0 < n`. -/
def divide_chunks {α : Type} : List α → Nat → List (List α)
  | [], _ => []
  | _ :: _, 0 => []
  | a :: l, n + 1 => (a :: l).take (n + 1) :: divide_chunks ((a :: l).drop (n + 1)) (n + 1)
termination_by l _ => l.length
decreasing_by
  simp only [List.length_drop, List.length_cons]
  omega

/-! ### `get_yaxis`

`get_yaxis(fig, i, facet_col_wrap)` reads `n = len(list(fig.select_yaxes()))`
and computes `n_cols = min(facet_col_wrap, n)`, `n_rows = n // n_cols`, then
builds the flattened index list
`[[n-((1+r)*n_cols-c) for c in range(n_cols)] for r in range(n_rows)]`
and returns `yaxes[idx[i]]`.  We model the figure by its axis count `n` and
return the selected axis position; `none` models the `IndexError` raised by
`idx[i]` when `i` is out of range. -/

/-- The flattened facet-to-axis index list built inside `get_yaxis`. -/
def yaxisIdx (n n_cols : Nat) : List Nat :=
  ((List.range (n / n_cols)).map fun r =>
    (List.range n_cols).map fun c => n - ((1 + r) * n_cols - c)).flatten

/-- `get_yaxis` on a figure with `n` y-axes: `some j` means the `j`-th axis
(in plotly's bottom-up order) is returned, `none` means `idx[i]` raises. -/
def get_yaxis (n i facet_col_wrap : Nat) : Option Nat :=
  (yaxisIdx n (min facet_col_wrap n))[i]?

/-! ### Configuration and data model

The configuration surface is a structure: the folder/variation literals of
the script together with the lists imported from the configuration modules
`shocks_to_plot` and `variables_to_plot`.  Getter functions are opaque values
of a type parameter `G`; operators are the strings `"pq"`, `"pm"`, `""`. -/

/-- Whether a `dt.Gdx(...)` call opened a folder's `baseline.gdx` (top of the
folder loop) or a shock result file (inside the variation loop). -/
inductive OpenKind where
  | base
  | shock
deriving DecidableEq

/-- One `dt.Gdx(...)` call: a fresh handle id and the opened path. -/
structure OpenEvent where
  id : Nat
  path : String
  kind : OpenKind
deriving DecidableEq

/-- One entry of `gdx_folders_info`: `(<path to a folder with gdx files>,
<label for this folder / version>)`. -/
structure FolderInfo where
  folder : String
  label : String
deriving DecidableEq

/-- One entry of `variations_info`: `(<file-name suffix>, <label DA>,
<label EN>)`. -/
structure VariationInfo where
  suffix : String
  labelDA : String
  labelEN : String
deriving DecidableEq

/-- One entry of `shock_specific_plot_info`: the shock-specific
`(variable_label_DK, variable_label_EN, getter, operator)` tuple that
replaces index 0 of the variable configuration. -/
structure ShockPlotInfo (G : Type) where
  variable_label_DK : String
  variable_label_EN : String
  getter : G
  operator : String
deriving DecidableEq

/-- The configuration surface of `plot_standard_shocks.py`. -/
structure Config (G : Type) where
  DA : Bool
  gdx_folders_info : List FolderInfo
  variations_info : List VariationInfo
  shock_names : List String
  shock_labels_DA : List String
  shock_labels_EN : List String
  shock_specific_plot_info : List (ShockPlotInfo G)
  variable_labels_DK : List String
  variable_labels_EN : List String
  get_variable_functions : List G
  operators : List String

/-- `variable_labels = variable_labels_DK if DA else variable_labels_EN`. -/
def variable_labels_init {G : Type} (cfg : Config G) : List String :=
  if cfg.DA then cfg.variable_labels_DK else cfg.variable_labels_EN

/-- `shock_labels = shock_labels_DA if DA else shock_labels_EN`. -/
def shock_labels_of {G : Type} (cfg : Config G) : List String :=
  if cfg.DA then cfg.shock_labels_DA else cfg.shock_labels_EN

/-- `zip(shock_variation_suffixes, shock_variation_labels)`. -/
def variationPairs {G : Type} (cfg : Config G) : List (String × String) :=
  cfg.variations_info.map fun v => (v.suffix, if cfg.DA then v.labelDA else v.labelEN)

/-- `variable_label_DK if DA else variable_label_EN` of a shock-specific
plot-info tuple. -/
def specLabel {G : Type} (cfg : Config G) (sp : ShockPlotInfo G) : String :=
  if cfg.DA then sp.variable_label_DK else sp.variable_label_EN

/-- Python `zip` of three lists (truncating to the shortest). -/
def zip3 {α β γ : Type} : List α → List β → List γ → List (α × β × γ)
  | a :: as, b :: bs, c :: cs => (a, b, c) :: zip3 as bs cs
  | _, _, _ => []

/-- `zip(shock_names, shock_labels, shock_specific_plot_info)`. -/
def shockTriples {G : Type} (cfg : Config G) : List (String × String × ShockPlotInfo G) :=
  zip3 cfg.shock_names (shock_labels_of cfg) cfg.shock_specific_plot_info

/-- `fr"{folder}\{shock}{suffix}.gdx"`. -/
def shockGdxPath (folder shock sfx : String) : String :=
  folder ++ "\\" ++ shock ++ sfx ++ ".gdx"

/-- `fr"{folder}\baseline.gdx"`. -/
def baselinePath (folder : String) : String :=
  folder ++ "\\baseline.gdx"

/-- `shock_files_exist(shock)`: `all(os.path.exists(...) for suffix ... for
folder ...)`, with the filesystem as a boolean oracle `fs`. -/
def shock_files_exist {G : Type} (cfg : Config G) (fs : String → Bool) (shock : String) :
    Bool :=
  cfg.variations_info.all fun v =>
    cfg.gdx_folders_info.all fun f => fs (shockGdxPath f.folder shock v.suffix)

/-- The message printed when a shock is skipped. -/
def skipMsg (shock : String) : String :=
  "Skipping '" ++ shock ++ "' as one or more GDX files are missing"

/-- One row of the combination dataframe `data`.  The `database` and
`baseline` fields hold `(handle id, path)` pairs standing for the tupled
`dt.Gdx` objects of the source. -/
structure Row (G : Type) where
  variable_index : Nat
  folder : String
  folder_label : String
  shock_name : String
  shock_label : String
  variation : String
  variation_label : String
  database : Nat × String
  baseline : Nat × String
  getter : G
  variable_label : String
  operator : String
deriving DecidableEq

/-- The mutable state of the data-building loop: the three module-level
variable lists (whose index 0 is overwritten per shock), the accumulated
rows, the console output, and the log of `dt.Gdx` open calls. -/
structure BuildState (G : Type) where
  variable_labels : List String
  get_variable_functions : List G
  operators : List String
  rows : List (Row G)
  printed : List String
  opened : List OpenEvent
  nextId : Nat
deriving DecidableEq

/-- Failures of the Python run: `IndexError` from `variable_labels[0] = ...`
on an empty list, `AttributeError` from accessing a missing dataframe
column as an attribute. -/
inductive Err where
  | indexError
  | attributeError (attr : String)
deriving DecidableEq

/-- The dictionary appended to `data` for one
`(folder, shock, variation, variable)` combination. -/
def mkRow {G : Type} (f : FolderInfo) (name label sfx vlabel : String)
    (db base : Nat × String) (i : Nat) (t : String × G × String) : Row G :=
  { variable_index := i
    folder := f.folder
    folder_label := f.label
    shock_name := name
    shock_label := label
    variation := sfx
    variation_label := vlabel
    database := db
    baseline := base
    getter := t.2.1
    variable_label := t.1
    operator := t.2.2 }

/-- The loop `for suffix, variation_label in zip(...)`: open the shock
database and append one row per variable. -/
def goVariations {G : Type} (f : FolderInfo) (base : Nat × String)
    (name label : String) : BuildState G → List (String × String) → BuildState G
  | st, [] => st
  | st, (sfx, vlabel) :: rest =>
    let db : Nat × String := (st.nextId, shockGdxPath f.folder name sfx)
    let st1 : BuildState G :=
      { st with
        opened := st.opened ++ [⟨st.nextId, shockGdxPath f.folder name sfx, OpenKind.shock⟩]
        nextId := st.nextId + 1 }
    let newRows : List (Row G) :=
      (zip3 st1.variable_labels st1.get_variable_functions st1.operators).enum.map
        fun p => mkRow f name label sfx vlabel db base p.1 p.2
    goVariations f base name label { st1 with rows := st1.rows ++ newRows } rest

/-- One iteration of `for shock_name, shock_label, shock_specific_plot in
zip(...)`: skip (with a console notice) when files are missing, otherwise
overwrite index 0 of the three variable lists with the shock-specific tuple
and run the variation loop.  `list[0] = ...` on an empty list raises. -/
def doShock {G : Type} (cfg : Config G) (fs : String → Bool) (f : FolderInfo)
    (base : Nat × String) (st : BuildState G) (name label : String)
    (sp : ShockPlotInfo G) : Except Err (BuildState G) :=
  if shock_files_exist cfg fs name then
    match st.variable_labels, st.get_variable_functions, st.operators with
    | _ :: vlt, _ :: gt, _ :: ot =>
      Except.ok (goVariations f base name label
        { st with
          variable_labels := specLabel cfg sp :: vlt
          get_variable_functions := sp.getter :: gt
          operators := sp.operator :: ot }
        (variationPairs cfg))
    | _, _, _ => Except.error Err.indexError
  else
    Except.ok { st with printed := st.printed ++ [skipMsg name] }

/-- The shock loop over `zip(shock_names, shock_labels,
shock_specific_plot_info)`. -/
def doShocks {G : Type} (cfg : Config G) (fs : String → Bool) (f : FolderInfo)
    (base : Nat × String) :
    BuildState G → List (String × String × ShockPlotInfo G) → Except Err (BuildState G)
  | st, [] => Except.ok st
  | st, (name, label, sp) :: rest =>
    match doShock cfg fs f base st name label sp with
    | Except.error e => Except.error e
    | Except.ok st1 => doShocks cfg fs f base st1 rest

/-- One iteration of `for folder, folder_label in gdx_folders_info`: open the
folder's baseline once, then run the shock loop with that shared handle. -/
def doFolder {G : Type} (cfg : Config G) (fs : String → Bool) (st : BuildState G)
    (f : FolderInfo) : Except Err (BuildState G) :=
  let base : Nat × String := (st.nextId, baselinePath f.folder)
  let st1 : BuildState G :=
    { st with
      opened := st.opened ++ [⟨st.nextId, baselinePath f.folder, OpenKind.base⟩]
      nextId := st.nextId + 1 }
  doShocks cfg fs f base st1 (shockTriples cfg)

/-- The folder loop. -/
def buildGo {G : Type} (cfg : Config G) (fs : String → Bool) :
    BuildState G → List FolderInfo → Except Err (BuildState G)
  | st, [] => Except.ok st
  | st, f :: rest =>
    match doFolder cfg fs st f with
    | Except.error e => Except.error e
    | Except.ok st1 => buildGo cfg fs st1 rest

/-- The loop state before the first folder iteration. -/
def initState {G : Type} (cfg : Config G) : BuildState G :=
  { variable_labels := variable_labels_init cfg
    get_variable_functions := cfg.get_variable_functions
    operators := cfg.operators
    rows := []
    printed := []
    opened := []
    nextId := 0 }

/-- The whole combination-table building loop (`data = [] ... for folder ...`). -/
def build {G : Type} (cfg : Config G) (fs : String → Bool) :
    Except Err (BuildState G) :=
  buildGo cfg fs (initState cfg) cfg.gdx_folders_info

/-! ### Dataframe, pagination, figures and reports -/

/-- `t1 = 2030`, the shock year. -/
def t1 : Nat := 2030

/-- `T = 2045`, the last year to plot. -/
def T : Nat := 2045

/-- The time range set by `dt.time(t1-1, T)`: the year index of the series
each row contributes after the melt. -/
def years : List Nat := (List.range (T - (t1 - 1) + 1)).map fun k => (t1 - 1) + k

/-- One record of the melted dataframe `df`: a `(time, value)` pair joined
back to its combination row. -/
structure DfRow (G : Type) where
  t : Nat
  value : Int
  row : Row G
deriving DecidableEq

/-- `data.apply(get_multiplier, axis=1).melt(ignore_index=False).join(data)`:
the melt stacks column by column (year-major), each record carrying its
original row's metadata.  The numeric values come from the external
`dt.DataFrame` multiplier computation, abstracted as `ev`. -/
def dfRows {G : Type} (ev : Row G → Nat → Int) (rows : List (Row G)) : List (DfRow G) :=
  years.flatMap fun tt => rows.map fun r => ⟨tt, ev r tt, r⟩

/-- `columns_pr_page = 3`. -/
def columns_pr_page : Nat := 3

/-- `rows_pr_page = 6`. -/
def rows_pr_page : Nat := 6

/-- `plots_pr_page = columns_pr_page * rows_pr_page`. -/
def plots_pr_page : Nat := columns_pr_page * rows_pr_page

/-- pandas `Series.unique()`: the distinct values in first-occurrence order. -/
def uniqueFirst {α : Type} [DecidableEq α] : List α → List α
  | [] => []
  | x :: xs => x :: uniqueFirst (xs.filter fun y => y ≠ x)
termination_by l => l.length
decreasing_by
  exact Nat.lt_succ_of_le (List.length_filter_le _ _)

/-- The decimal digit characters, as used by `str`/f-string formatting. -/
def digitChar (d : Nat) : Char :=
  if d = 0 then '0' else if d = 1 then '1' else if d = 2 then '2'
  else if d = 3 then '3' else if d = 4 then '4' else if d = 5 then '5'
  else if d = 6 then '6' else if d = 7 then '7' else if d = 8 then '8'
  else if d = 9 then '9' else '*'

def natReprAux (n : Nat) (acc : List Char) : List Char :=
  if n < 10 then digitChar n :: acc
  else natReprAux (n / 10) (digitChar (n % 10) :: acc)
termination_by n
decreasing_by
  exact Nat.div_lt_self (by omega) (by omega)

/-- Decimal rendering of a number, as Python's `f"{page_number}"`. -/
def natRepr (n : Nat) : String := ⟨natReprAux n []⟩

/-- Proof-side decoder of a decimal digit string, used to establish that
`natRepr` is injective. -/
def decodeDigits (cs : List Char) : Nat :=
  cs.foldl (fun a c => a * 10 + (c.toNat - 48)) 0

/-- The common length of the three variable-configuration lists (their
minimum, which is what `zip` truncates to). -/
def minLen {G : Type} (cfg : Config G) : Nat :=
  min (variable_labels_init cfg).length
    (min cfg.get_variable_functions.length cfg.operators.length)

/-- `figure_name = f"{shock_label} {page_number}"`. -/
def figureKey (shock_label : String) (page_number : Nat) : String :=
  shock_label ++ " " ++ natRepr page_number

/-- One rendered figure: its shock label, page number, and the selected
slice of the melted dataframe it plots. -/
structure Figure (G : Type) where
  label : String
  page : Nat
  data : List (DfRow G)
deriving DecidableEq

/-- The figure generation loop `for shock_label in df.shock_label.unique():
for page_number, variable_index in enumerate(indices_by_page, 1)`, producing
`(figure_name, figure)` pairs in generation order. -/
def figuresList {G : Type} (df : List (DfRow G)) (pages : List (List Nat)) :
    List (String × Figure G) :=
  (uniqueFirst (df.map fun d => d.row.shock_label)).flatMap fun lab =>
    pages.enum.map fun pc =>
      (figureKey lab (pc.1 + 1),
       { label := lab
         page := pc.1 + 1
         data := df.filter fun d =>
           decide (d.row.shock_label = lab ∧ d.row.variable_index ∈ pc.2) })

/-- Python `dict` assignment `figures[figure_name] = fig`: replace in place
if the key is present, else append. -/
def dictInsert {G : Type} (d : List (String × Figure G)) (k : String) (v : Figure G) :
    List (String × Figure G) :=
  match d with
  | [] => [(k, v)]
  | (k', v') :: rest => if k' = k then (k, v) :: rest else (k', v') :: dictInsert rest k v

/-- The `figures` dict after all insertions, in insertion order. -/
def dictOfList {G : Type} (l : List (String × Figure G)) : List (String × Figure G) :=
  l.foldl (fun d kv => dictInsert d kv.1 kv.2) []

/-- `output_folder = r"Output"`. -/
def output_folder : String := "Output"

/-- `fname = "standard_shocks"`. -/
def fname : String := "standard_shocks"

/-- `output_extension = ".png"`. -/
def output_extension : String := ".png"

/-- The `dt.write_image` target `f"{output_folder}/{figure_name}{output_extension}"`. -/
def imagePath (figure_name : String) : String :=
  output_folder ++ "/" ++ figure_name ++ output_extension

/-- Modelled from the spec: `dt.figures_to_html` (external charting/report
collaborator) writes one combined HTML file "containing all figures in
generation order"; the report is modelled as the ordered list of figure
entries it contains. -/
def figures_to_html {G : Type} (figs : List (Figure G)) : List (Figure G) := figs

/-- Modelled from the spec: `figures_to_pdf` from the repository module
`pdf_report` (imported by the script, not part of its file) writes "one
combined PDF document" containing all figures in generation order; modelled
as the ordered list of entries. -/
def figures_to_pdf {G : Type} (figs : List (Figure G)) : List (Figure G) := figs

/-- Everything the script produces after a successful run. -/
structure ScriptOut (G : Type) where
  state : BuildState G
  df : List (DfRow G)
  pages : List (List Nat)
  figures : List (String × Figure G)
  images : List String
  report : List (Figure G)
  html : List (Figure G)
  pdf : List (Figure G)
deriving DecidableEq

/-- The part of the script after a successful table build with a nonempty
table: melt, paginate, render figures, write images, export reports. -/
def scriptOutOf {G : Type} (ev : Row G → Nat → Int)
    (st : BuildState G) : ScriptOut G :=
  let df := dfRows ev st.rows
  let pages := divide_chunks (uniqueFirst (df.map fun d => d.row.variable_index))
    plots_pr_page
  let figsL := figuresList df pages
  let dict := dictOfList figsL
  { state := st
    df := df
    pages := pages
    figures := dict
    images := figsL.map fun kv => imagePath kv.1
    report := dict.map fun kv => kv.2
    html := figures_to_html (dict.map fun kv => kv.2)
    pdf := figures_to_pdf (dict.map fun kv => kv.2) }

/-- The whole script: build the combination table, then — as pandas does —
fail with `AttributeError` on `df.variable_index` when the table is an empty
dataframe (no columns), otherwise paginate, render and export. -/
def runScript {G : Type} (cfg : Config G) (fs : String → Bool)
    (ev : Row G → Nat → Int) : Except Err (ScriptOut G) :=
  match build cfg fs with
  | Except.error e => Except.error e
  | Except.ok st =>
    if st.rows.isEmpty then Except.error (Err.attributeError "variable_index")
    else Except.ok (scriptOutOf ev st)

/-! ### Concrete example configurations (used to witness the theorems) -/

/-- A small concrete configuration: one folder `"G"`, one variation `"_b"`,
two shocks `"a"` (label `"A"`) and `"b"` (label `"Bb"`), two variables. -/
def cfgEx : Config Nat :=
  { DA := true
    gdx_folders_info := [⟨"G", ""⟩]
    variations_info := [⟨"_b", "B", "B"⟩]
    shock_names := ["a", "b"]
    shock_labels_DA := ["A", "Bb"]
    shock_labels_EN := ["A", "Bb"]
    shock_specific_plot_info := [⟨"ha", "ha", 10, "pq"⟩, ⟨"hb", "hb", 11, "pm"⟩]
    variable_labels_DK := ["v0", "v1"]
    variable_labels_EN := ["v0", "v1"]
    get_variable_functions := [0, 1]
    operators := ["pq", "pm"] }

/-- A filesystem where shock `"a"` has its result file but shock `"b"` does
not. -/
def fsEx : String → Bool := fun p => p = "G\\a_b.gdx" || p = "G\\baseline.gdx"

/-- A trivial multiplier evaluation. -/
def evEx : Row Nat → Nat → Int := fun _ _ => 0

/-- The builder state reached on the example configuration. -/
def stEx : BuildState Nat :=
  match build cfgEx fsEx with
  | Except.ok st => st
  | Except.error _ => initState cfgEx

/-- The script output on the example configuration. -/
def outEx : ScriptOut Nat :=
  match runScript cfgEx fsEx evEx with
  | Except.ok o => o
  | Except.error _ => scriptOutOf evEx (initState cfgEx)

/-- The example configuration with both shocks sharing the display label
`"A"`. -/
def cfgEx2 : Config Nat :=
  { cfgEx with shock_labels_DA := ["A", "A"], shock_labels_EN := ["A", "A"] }

/-- A filesystem where both shocks have their result files. -/
def fsEx2 : String → Bool := fun p =>
  p = "G\\a_b.gdx" || p = "G\\b_b.gdx" || p = "G\\baseline.gdx"

/-- The script output when two distinct shocks share a display label. -/
def outEx2 : ScriptOut Nat :=
  match runScript cfgEx2 fsEx2 evEx with
  | Except.ok o => o
  | Except.error _ => scriptOutOf evEx (initState cfgEx2)

/-- A filesystem with no files at all. -/
def fsNone : String → Bool := fun _ => false

/-! ### Theorems -/

theorem divide_chunks_nil {α : Type} (n : Nat) : divide_chunks ([] : List α) n = [] := by
  simp only [divide_chunks]

theorem divide_chunks_cons {α : Type} (l : List α) (n : Nat) (hl : l ≠ []) (hn : n ≠ 0) :
    divide_chunks l n = l.take n :: divide_chunks (l.drop n) n := by
  match l, n with
  | [], _ => exact absurd rfl hl
  | _ :: _, 0 => exact absurd rfl hn
  | a :: l, n + 1 => simp only [divide_chunks]

theorem divide_chunks_join_aux {α : Type} (n : Nat) (hn : 0 < n) :
    ∀ k, ∀ l : List α, l.length ≤ k → (divide_chunks l n).flatten = l := by
  intro k
  induction k with
  | zero =>
    intro l hl
    have : l = [] := List.length_eq_zero.mp (Nat.le_zero.mp hl)
    subst this
    simp [divide_chunks_nil]
  | succ k ih =>
    intro l hl
    by_cases hnil : l = []
    · subst hnil; simp [divide_chunks_nil]
    · have hlen : 0 < l.length := List.length_pos.mpr hnil
      rw [divide_chunks_cons l n hnil (by omega), List.flatten_cons,
        ih (l.drop n) (by simp only [List.length_drop]; omega)]
      exact List.take_append_drop n l

theorem divide_chunks_join {α : Type} (n : Nat) (hn : 0 < n) (l : List α) :
    (divide_chunks l n).flatten = l :=
  divide_chunks_join_aux n hn l.length l (le_refl _)

theorem divide_chunks_dropLast_aux {α : Type} (n : Nat) (hn : 0 < n) :
    ∀ k, ∀ l : List α, l.length ≤ k →
      ∀ c ∈ (divide_chunks l n).dropLast, c.length = n := by
  intro k
  induction k with
  | zero =>
    intro l hl c hc
    have : l = [] := List.length_eq_zero.mp (Nat.le_zero.mp hl)
    subst this
    simp [divide_chunks_nil] at hc
  | succ k ih =>
    intro l hl c hc
    by_cases hnil : l = []
    · subst hnil; simp [divide_chunks_nil] at hc
    · have hlen : 0 < l.length := List.length_pos.mpr hnil
      rw [divide_chunks_cons l n hnil (by omega)] at hc
      by_cases hd : l.drop n = []
      · rw [hd, divide_chunks_nil] at hc
        simp at hc
      · rw [divide_chunks_cons (l.drop n) n hd (by omega), List.dropLast_cons₂,
          ← divide_chunks_cons (l.drop n) n hd (by omega)] at hc
        rcases List.mem_cons.mp hc with hc | hc
        · subst hc
          have hnl : n ≤ l.length := by
            by_contra hcon
            exact hd (List.drop_eq_nil_of_le (by omega))
          simp [List.length_take, Nat.min_eq_left hnl]
        · exact ih (l.drop n) (by simp only [List.length_drop]; omega) c hc

theorem divide_chunks_getLast_aux {α : Type} (n : Nat) (hn : 0 < n) :
    ∀ k, ∀ l : List α, l.length ≤ k → l ≠ [] →
      ∀ c, (divide_chunks l n).getLast? = some c → 1 ≤ c.length ∧ c.length ≤ n := by
  intro k
  induction k with
  | zero =>
    intro l hl hnil c _
    exact absurd (List.length_eq_zero.mp (Nat.le_zero.mp hl)) hnil
  | succ k ih =>
    intro l hl hnil c hc
    have hlen : 0 < l.length := List.length_pos.mpr hnil
    rw [divide_chunks_cons l n hnil (by omega)] at hc
    by_cases hd : l.drop n = []
    · rw [hd, divide_chunks_nil] at hc
      simp only [List.getLast?_singleton, Option.some.injEq] at hc
      subst hc
      simp only [List.length_take]
      omega
    · rw [divide_chunks_cons (l.drop n) n hd (by omega), List.getLast?_cons_cons,
        ← divide_chunks_cons (l.drop n) n hd (by omega)] at hc
      exact ih (l.drop n) (by simp only [List.length_drop]; omega) hd c hc

theorem divide_chunks_length_aux {α : Type} (n : Nat) (hn : 0 < n) :
    ∀ k, ∀ l : List α, l.length ≤ k → l ≠ [] →
      (divide_chunks l n).length = (l.length + n - 1) / n := by
  intro k
  induction k with
  | zero =>
    intro l hl hnil
    exact absurd (List.length_eq_zero.mp (Nat.le_zero.mp hl)) hnil
  | succ k ih =>
    intro l hl hnil
    have hlen : 0 < l.length := List.length_pos.mpr hnil
    rw [divide_chunks_cons l n hnil (by omega)]
    by_cases hd : l.drop n = []
    · rw [hd, divide_chunks_nil]
      have hle : l.length ≤ n := List.drop_eq_nil_iff.mp hd
      have h1 : l.length + n - 1 = (l.length - 1) + n := by omega
      rw [List.length_cons, List.length_nil, h1, Nat.add_div_right _ hn,
        Nat.div_eq_of_lt (by omega)]
    · have hgt : n < l.length := by
        by_contra hcon
        exact hd (List.drop_eq_nil_of_le (by omega))
      rw [List.length_cons,
        ih (l.drop n) (by simp only [List.length_drop]; omega) hd]
      simp only [List.length_drop]
      have h1 : l.length + n - 1 = ((l.length - n + n - 1) + n) := by omega
      rw [h1, Nat.add_div_right _ hn]

theorem divide_chunks_length {α : Type} (n : Nat) (hn : 0 < n) (l : List α) (hl : l ≠ []) :
    (divide_chunks l n).length = (l.length + n - 1) / n :=
  divide_chunks_length_aux n hn l.length l (le_refl _) hl

/-- Claim C4: for every list `l` and chunk size `n > 0`, concatenating the
chunks produced by `divide_chunks l n` in order yields exactly `l`; every
chunk except possibly the last has length exactly `n`, and the last chunk has
length between `1` and `n`.  (Determinism is inherent: `divide_chunks` is a
pure function of its arguments.) -/
theorem divide_chunks_correct {α : Type} (l : List α) (n : Nat) (hn : 0 < n) :
    (divide_chunks l n).flatten = l ∧
    (∀ c ∈ (divide_chunks l n).dropLast, c.length = n) ∧
    (∀ c, (divide_chunks l n).getLast? = some c → 1 ≤ c.length ∧ c.length ≤ n) := by
  refine ⟨divide_chunks_join n hn l,
    divide_chunks_dropLast_aux n hn l.length l (le_refl _), ?_⟩
  intro c hc
  by_cases hl : l = []
  · subst hl; rw [divide_chunks_nil] at hc; simp at hc
  · exact divide_chunks_getLast_aux n hn l.length l (le_refl _) hl c hc

/-- Witness for C4 at `l = [1,2,3,4,5]`, `n = 2`. -/
theorem divide_chunks_correct_witness :
    0 < 2 ∧
    ((divide_chunks [1, 2, 3, 4, 5] 2).flatten = [1, 2, 3, 4, 5] ∧
    (∀ c ∈ (divide_chunks [1, 2, 3, 4, 5] 2).dropLast, c.length = 2) ∧
    (∀ c, (divide_chunks [1, 2, 3, 4, 5] 2).getLast? = some c →
      1 ≤ c.length ∧ c.length ≤ 2)) :=
  ⟨by decide, divide_chunks_correct [1, 2, 3, 4, 5] 2 (by decide)⟩

theorem yaxisIdx_length (n c : Nat) : (yaxisIdx n c).length = (n / c) * c := by
  unfold yaxisIdx
  rw [List.length_flatten, List.map_map]
  have h1 : (List.length ∘ fun r => (List.range c).map fun c_ => n - ((1 + r) * c - c_)) =
      fun _ => c := by
    funext r
    simp
  rw [h1]
  have h2 : ∀ m : Nat, ((List.range m).map (fun _ => c)).sum = m * c := by
    intro m
    induction m with
    | zero => simp
    | succ m ihm =>
      rw [List.range_succ, List.map_append, List.sum_append]
      simp [ihm, Nat.succ_mul]
  rw [h2]

theorem yaxisIdx_decompose (k c : Nat) (hc : 0 < c) :
    yaxisIdx ((k + 1) * c) c =
      (List.range c).map (fun j => k * c + j) ++ yaxisIdx (k * c) c := by
  have hdiv1 : ((k + 1) * c) / c = k + 1 := Nat.mul_div_cancel _ hc
  have hdiv2 : (k * c) / c = k := Nat.mul_div_cancel _ hc
  unfold yaxisIdx
  rw [hdiv1, hdiv2, List.range_succ_eq_map, List.map_cons, List.flatten_cons]
  congr 1
  · apply List.map_congr_left
    intro j hj
    have hjc : j < c := List.mem_range.mp hj
    rw [show (1 + 0) * c = c from by ring, show (k + 1) * c = k * c + c from by ring]
    omega
  · rw [List.map_map]
    apply congrArg
    apply List.map_congr_left
    intro r hr
    have hrk : r < k := List.mem_range.mp hr
    simp only [Function.comp_apply]
    apply List.map_congr_left
    intro j hj
    have hjc : j < c := List.mem_range.mp hj
    have h3 : (1 + r) * c ≤ k * c := Nat.mul_le_mul_right c (by omega)
    have h4 : c ≤ (1 + r) * c := by
      calc c = 1 * c := (one_mul c).symm
        _ ≤ (1 + r) * c := Nat.mul_le_mul_right c (by omega)
    rw [show (1 + Nat.succ r) * c = (1 + r) * c + c from by
        rw [Nat.succ_eq_add_one]; ring,
      show (k + 1) * c = k * c + c from by ring]
    omega

theorem yaxisIdx_perm_of_mul (c : Nat) (hc : 0 < c) :
    ∀ k, (yaxisIdx (k * c) c).Perm (List.range (k * c)) := by
  intro k
  induction k with
  | zero => simp [yaxisIdx]
  | succ k ih =>
    rw [yaxisIdx_decompose k c hc]
    have hr : List.range ((k + 1) * c) =
        List.range (k * c) ++ (List.range c).map (fun j => k * c + j) := by
      rw [show (k + 1) * c = k * c + c from by ring, List.range_add]
    rw [hr]
    have p1 : ((List.range c).map (fun j => k * c + j) ++ yaxisIdx (k * c) c).Perm
        ((List.range c).map (fun j => k * c + j) ++ List.range (k * c)) :=
      List.Perm.append_left _ ih
    have p2 : ((List.range c).map (fun j => k * c + j) ++ List.range (k * c)).Perm
        (List.range (k * c) ++ (List.range c).map (fun j => k * c + j)) :=
      List.perm_append_comm
    exact p1.trans p2

/-- Claim C10: the facet-to-axis index list built inside
`get_yaxis(fig, i, facet_col_wrap)` has `(n / n_cols) * n_cols` elements where
`n_cols = min(facet_col_wrap, n)`; when `n_cols` divides `n` the list is a
permutation of `0..n-1` and every call with `i < n` succeeds, but whenever
`i ≥ (n / n_cols) * n_cols` the call raises an out-of-range indexing error
(modelled as `none`). -/
theorem get_yaxis_correct (n facet_col_wrap : Nat) (hn : 1 ≤ n) (hw : 1 ≤ facet_col_wrap) :
    (yaxisIdx n (min facet_col_wrap n)).length =
      (n / min facet_col_wrap n) * min facet_col_wrap n ∧
    (min facet_col_wrap n ∣ n →
      (yaxisIdx n (min facet_col_wrap n)).Perm (List.range n) ∧
      ∀ i < n, ∃ j < n, get_yaxis n i facet_col_wrap = some j) ∧
    (∀ i, (n / min facet_col_wrap n) * min facet_col_wrap n ≤ i →
      get_yaxis n i facet_col_wrap = none) := by
  set c := min facet_col_wrap n with hcdef
  have hc : 0 < c := lt_min_iff.mpr ⟨hw, hn⟩
  refine ⟨yaxisIdx_length n c, ?_, ?_⟩
  · intro hdvd
    obtain ⟨k, hk⟩ := hdvd
    have hk' : n = k * c := by rw [hk, Nat.mul_comm]
    have hperm : (yaxisIdx n c).Perm (List.range n) := by
      rw [hk']
      exact yaxisIdx_perm_of_mul c hc k
    refine ⟨hperm, ?_⟩
    intro i hi
    have hlen : (yaxisIdx n c).length = n := by
      rw [hperm.length_eq, List.length_range]
    have hi' : i < (yaxisIdx n c).length := by omega
    refine ⟨(yaxisIdx n c)[i], ?_, ?_⟩
    · have hmem : (yaxisIdx n c)[i] ∈ yaxisIdx n c := List.getElem_mem hi'
      have : (yaxisIdx n c)[i] ∈ List.range n := hperm.mem_iff.mp hmem
      exact List.mem_range.mp this
    · simp only [get_yaxis, ← hcdef]
      exact List.getElem?_eq_getElem hi'
  · intro i hi
    simp only [get_yaxis, ← hcdef]
    apply List.getElem?_eq_none
    rw [yaxisIdx_length]
    exact hi

/-- Witness for C10 at `n = 6` axes, `facet_col_wrap = 3`. -/
theorem get_yaxis_correct_witness :
    1 ≤ 6 ∧ 1 ≤ 3 ∧
    ((yaxisIdx 6 (min 3 6)).length = (6 / min 3 6) * min 3 6 ∧
    (min 3 6 ∣ 6 →
      (yaxisIdx 6 (min 3 6)).Perm (List.range 6) ∧
      ∀ i < 6, ∃ j < 6, get_yaxis 6 i 3 = some j) ∧
    (∀ i, (6 / min 3 6) * min 3 6 ≤ i → get_yaxis 6 i 3 = none)) :=
  ⟨by decide, by decide, get_yaxis_correct 6 3 (by decide) (by decide)⟩

/-! ### Generic helper lemmas -/

theorem zip3_nil_left {α β γ : Type} (bs : List β) (cs : List γ) :
    zip3 ([] : List α) bs cs = [] := by
  cases bs <;> cases cs <;> rfl

theorem zip3_cons {α β γ : Type} (a : α) (as : List α) (b : β) (bs : List β)
    (c : γ) (cs : List γ) :
    zip3 (a :: as) (b :: bs) (c :: cs) = (a, b, c) :: zip3 as bs cs := rfl

theorem zip3_length {α β γ : Type} :
    ∀ (as : List α) (bs : List β) (cs : List γ),
      (zip3 as bs cs).length = min as.length (min bs.length cs.length) := by
  intro as
  induction as with
  | nil => intro bs cs; rw [zip3_nil_left]; simp
  | cons a as ih =>
    intro bs cs
    cases bs with
    | nil => simp [zip3]
    | cons b bs =>
      cases cs with
      | nil => simp [zip3]
      | cons c cs =>
        rw [zip3_cons, List.length_cons, ih]
        simp only [List.length_cons]
        omega

theorem zip3_getElem?_eq_some {α β γ : Type} :
    ∀ (as : List α) (bs : List β) (cs : List γ) (i : Nat) (t : α × β × γ),
      (zip3 as bs cs)[i]? = some t ↔
        as[i]? = some t.1 ∧ bs[i]? = some t.2.1 ∧ cs[i]? = some t.2.2 := by
  intro as
  induction as with
  | nil =>
    intro bs cs i t
    rw [zip3_nil_left]
    simp
  | cons a as ih =>
    intro bs cs i t
    cases bs with
    | nil => simp [zip3]
    | cons b bs =>
      cases cs with
      | nil => simp [zip3]
      | cons c cs =>
        rw [zip3_cons]
        cases i with
        | zero =>
          simp only [List.getElem?_cons_zero, Option.some.injEq]
          constructor
          · intro h
            rw [← h]
            exact ⟨rfl, rfl, rfl⟩
          · intro ⟨h1, h2, h3⟩
            cases t with
            | mk t1 t2 =>
              cases t2 with
              | mk t21 t22 =>
                simp at h1 h2 h3
                simp [h1, h2, h3]
        | succ i =>
          simp only [List.getElem?_cons_succ]
          exact ih bs cs i t

theorem zip3_mem_fst {α β γ : Type} :
    ∀ (as : List α) (bs : List β) (cs : List γ) (t : α × β × γ),
      t ∈ zip3 as bs cs → t.1 ∈ as := by
  intro as
  induction as with
  | nil => intro bs cs t h; rw [zip3_nil_left] at h; simp at h
  | cons a as ih =>
    intro bs cs t h
    cases bs with
    | nil => simp [zip3] at h
    | cons b bs =>
      cases cs with
      | nil => simp [zip3] at h
      | cons c cs =>
        rw [zip3_cons] at h
        rcases List.mem_cons.mp h with h | h
        · subst h; exact List.mem_cons_self _ _
        · exact List.mem_cons_of_mem _ (ih bs cs t h)

theorem zip3_unique_of_nodup {α β γ : Type} [DecidableEq α] :
    ∀ (as : List α) (bs : List β) (cs : List γ) (t t' : α × β × γ),
      as.Nodup → t ∈ zip3 as bs cs → t' ∈ zip3 as bs cs → t.1 = t'.1 → t = t' := by
  intro as
  induction as with
  | nil => intro bs cs t t' _ h; rw [zip3_nil_left] at h; simp at h
  | cons a as ih =>
    intro bs cs t t' hnd h h' heq
    cases bs with
    | nil => simp [zip3] at h
    | cons b bs =>
      cases cs with
      | nil => simp [zip3] at h
      | cons c cs =>
        rw [zip3_cons] at h h'
        have hnd1 : a ∉ as := (List.nodup_cons.mp hnd).1
        have hnd2 : as.Nodup := (List.nodup_cons.mp hnd).2
        rcases List.mem_cons.mp h with h | h <;> rcases List.mem_cons.mp h' with h' | h'
        · rw [h, h']
        · exfalso
          subst h
          have : t'.1 ∈ as := zip3_mem_fst as bs cs t' h'
          rw [← heq] at this
          exact hnd1 this
        · exfalso
          subst h'
          have : t.1 ∈ as := zip3_mem_fst as bs cs t h
          rw [heq] at this
          exact hnd1 this
        · exact ih bs cs t t' hnd2 h h' heq

/-! #### `uniqueFirst` -/

theorem uniqueFirst_nil {α : Type} [DecidableEq α] : uniqueFirst ([] : List α) = [] := by
  simp only [uniqueFirst]

theorem uniqueFirst_cons {α : Type} [DecidableEq α] (x : α) (xs : List α) :
    uniqueFirst (x :: xs) = x :: uniqueFirst (xs.filter fun y => y ≠ x) := by
  simp only [uniqueFirst]

theorem uniqueFirst_mem_aux {α : Type} [DecidableEq α] :
    ∀ k, ∀ l : List α, l.length ≤ k → ∀ a, a ∈ uniqueFirst l ↔ a ∈ l := by
  intro k
  induction k with
  | zero =>
    intro l hl a
    have : l = [] := List.length_eq_zero.mp (Nat.le_zero.mp hl)
    subst this
    rw [uniqueFirst_nil]
  | succ k ih =>
    intro l hl a
    cases l with
    | nil => rw [uniqueFirst_nil]
    | cons x xs =>
      rw [uniqueFirst_cons]
      simp only [List.mem_cons]
      by_cases hax : a = x
      · simp [hax]
      · have hfl : (xs.filter fun y => y ≠ x).length ≤ k :=
          le_trans (List.length_filter_le _ _) (by simpa using hl)
        rw [ih _ hfl a]
        simp only [List.mem_filter, decide_eq_true_eq]
        constructor
        · intro h
          rcases h with h | h
          · exact Or.inl h
          · exact Or.inr h.1
        · intro h
          rcases h with h | h
          · exact Or.inl h
          · exact Or.inr ⟨h, hax⟩

theorem uniqueFirst_mem_iff {α : Type} [DecidableEq α] (l : List α) (a : α) :
    a ∈ uniqueFirst l ↔ a ∈ l :=
  uniqueFirst_mem_aux l.length l (le_refl _) a

theorem uniqueFirst_nodup_aux {α : Type} [DecidableEq α] :
    ∀ k, ∀ l : List α, l.length ≤ k → (uniqueFirst l).Nodup := by
  intro k
  induction k with
  | zero =>
    intro l hl
    have : l = [] := List.length_eq_zero.mp (Nat.le_zero.mp hl)
    subst this
    rw [uniqueFirst_nil]
    exact List.nodup_nil
  | succ k ih =>
    intro l hl
    cases l with
    | nil => rw [uniqueFirst_nil]; exact List.nodup_nil
    | cons x xs =>
      rw [uniqueFirst_cons, List.nodup_cons]
      have hfl : (xs.filter fun y => y ≠ x).length ≤ k :=
        le_trans (List.length_filter_le _ _) (by simpa using hl)
      refine ⟨?_, ih _ hfl⟩
      intro hmem
      have := (uniqueFirst_mem_aux k _ hfl x).mp hmem
      simp at this

theorem uniqueFirst_nodup {α : Type} [DecidableEq α] (l : List α) :
    (uniqueFirst l).Nodup :=
  uniqueFirst_nodup_aux l.length l (le_refl _)

theorem uniqueFirst_eq_self_aux {α : Type} [DecidableEq α] :
    ∀ k, ∀ l : List α, l.length ≤ k → l.Nodup → uniqueFirst l = l := by
  intro k
  induction k with
  | zero =>
    intro l hl _
    have : l = [] := List.length_eq_zero.mp (Nat.le_zero.mp hl)
    subst this
    exact uniqueFirst_nil
  | succ k ih =>
    intro l hl hnd
    cases l with
    | nil => exact uniqueFirst_nil
    | cons x xs =>
      rw [uniqueFirst_cons]
      have hx : x ∉ xs := (List.nodup_cons.mp hnd).1
      have hxs : xs.Nodup := (List.nodup_cons.mp hnd).2
      have hfeq : xs.filter (fun y => y ≠ x) = xs := by
        apply List.filter_eq_self.mpr
        intro y hy
        simp only [decide_eq_true_eq]
        intro hyx
        exact hx (hyx ▸ hy)
      rw [hfeq, ih _ (by simpa using hl) hxs]

theorem uniqueFirst_append_aux {α : Type} [DecidableEq α] :
    ∀ k, ∀ xs ys : List α, xs.length ≤ k → (∀ y ∈ ys, y ∈ xs) →
      uniqueFirst (xs ++ ys) = uniqueFirst xs := by
  intro k
  induction k with
  | zero =>
    intro xs ys hl hsub
    have hx : xs = [] := List.length_eq_zero.mp (Nat.le_zero.mp hl)
    subst hx
    have hy : ys = [] := by
      cases ys with
      | nil => rfl
      | cons y ys => exact absurd (hsub y (List.mem_cons_self _ _)) (List.not_mem_nil y)
    subst hy
    rfl
  | succ k ih =>
    intro xs ys hl hsub
    cases xs with
    | nil =>
      have hy : ys = [] := by
        cases ys with
        | nil => rfl
        | cons y ys => exact absurd (hsub y (List.mem_cons_self _ _)) (List.not_mem_nil y)
      subst hy
      rfl
    | cons x xs =>
      rw [List.cons_append, uniqueFirst_cons, uniqueFirst_cons, List.filter_append]
      congr 1
      apply ih
      · exact le_trans (List.length_filter_le _ _) (by simpa using hl)
      · intro y hy
        simp only [List.mem_filter, decide_eq_true_eq] at hy ⊢
        rcases List.mem_cons.mp (hsub y hy.1) with h | h
        · exact absurd h hy.2
        · exact ⟨h, hy.2⟩

theorem uniqueFirst_append_of_subset {α : Type} [DecidableEq α] (xs ys : List α)
    (hsub : ∀ y ∈ ys, y ∈ xs) : uniqueFirst (xs ++ ys) = uniqueFirst xs :=
  uniqueFirst_append_aux xs.length xs ys (le_refl _) hsub

theorem uniqueFirst_replicate_flatten {α : Type} [DecidableEq α] (m : Nat) (hm : 0 < m)
    (xs : List α) : uniqueFirst (List.replicate m xs).flatten = uniqueFirst xs := by
  obtain ⟨m', rfl⟩ : ∃ m', m = m' + 1 := ⟨m - 1, by omega⟩
  rw [List.replicate_succ, List.flatten_cons]
  apply uniqueFirst_append_of_subset
  intro y hy
  rw [List.mem_flatten] at hy
  obtain ⟨l, hl, hyl⟩ := hy
  rw [List.eq_of_mem_replicate hl] at hyl
  exact hyl

/-! #### Decimal rendering and figure keys -/

theorem natReprAux_lt (n : Nat) (acc : List Char) (h : n < 10) :
    natReprAux n acc = digitChar n :: acc := by
  rw [natReprAux]
  simp [h]

theorem natReprAux_ge (n : Nat) (acc : List Char) (h : ¬n < 10) :
    natReprAux n acc = natReprAux (n / 10) (digitChar (n % 10) :: acc) := by
  rw [natReprAux]
  simp [h]

theorem natReprAux_append (n : Nat) :
    ∀ acc, natReprAux n acc = natReprAux n [] ++ acc := by
  induction n using Nat.strong_induction_on with
  | _ n ih =>
    intro acc
    by_cases h : n < 10
    · rw [natReprAux_lt n acc h, natReprAux_lt n [] h]
      rfl
    · rw [natReprAux_ge n acc h, natReprAux_ge n [] h,
        ih (n / 10) (Nat.div_lt_self (by omega) (by omega)) (digitChar (n % 10) :: acc),
        ih (n / 10) (Nat.div_lt_self (by omega) (by omega)) [digitChar (n % 10)]]
      simp

theorem natReprAux_chars (n : Nat) :
    ∀ c ∈ natReprAux n [], ∃ d, d < 10 ∧ c = digitChar d := by
  induction n using Nat.strong_induction_on with
  | _ n ih =>
    intro c hc
    by_cases h : n < 10
    · rw [natReprAux_lt n [] h] at hc
      simp only [List.mem_singleton] at hc
      exact ⟨n, h, hc⟩
    · rw [natReprAux_ge n [] h,
        natReprAux_append (n / 10) [digitChar (n % 10)]] at hc
      rcases List.mem_append.mp hc with hc | hc
      · exact ih (n / 10) (Nat.div_lt_self (by omega) (by omega)) c hc
      · simp only [List.mem_singleton] at hc
        exact ⟨n % 10, Nat.mod_lt _ (by omega), hc⟩

theorem digitChar_ne_space : ∀ d < 10, digitChar d ≠ ' ' := by decide

theorem digitChar_toNat : ∀ d < 10, (digitChar d).toNat = 48 + d := by decide

theorem natRepr_no_space (n : Nat) : ' ' ∉ (natRepr n).data := by
  intro h
  obtain ⟨d, hd, hc⟩ := natReprAux_chars n ' ' h
  exact digitChar_ne_space d hd hc.symm

theorem decodeDigits_append_singleton (cs : List Char) (c : Char) :
    decodeDigits (cs ++ [c]) = decodeDigits cs * 10 + (c.toNat - 48) := by
  simp [decodeDigits, List.foldl_append]

theorem decodeDigits_natReprAux (n : Nat) : decodeDigits (natReprAux n []) = n := by
  induction n using Nat.strong_induction_on with
  | _ n ih =>
    by_cases h : n < 10
    · rw [natReprAux_lt n [] h]
      simp only [decodeDigits, List.foldl_cons, List.foldl_nil]
      rw [digitChar_toNat n h]
      omega
    · rw [natReprAux_ge n [] h, natReprAux_append (n / 10) [digitChar (n % 10)],
        decodeDigits_append_singleton,
        ih (n / 10) (Nat.div_lt_self (by omega) (by omega)),
        digitChar_toNat (n % 10) (Nat.mod_lt _ (by omega))]
      omega

theorem natRepr_injective (m n : Nat) (h : natRepr m = natRepr n) : m = n := by
  have hdata : natReprAux m [] = natReprAux n [] := congrArg String.data h
  calc m = decodeDigits (natReprAux m []) := (decodeDigits_natReprAux m).symm
    _ = decodeDigits (natReprAux n []) := congrArg _ hdata
    _ = n := decodeDigits_natReprAux n

theorem str_data_append (a b : String) : (a ++ b).data = a.data ++ b.data := by
  cases a
  cases b
  rfl

theorem str_data_injective (a b : String) (h : a.data = b.data) : a = b :=
  String.ext h

theorem space_data : (" " : String).data = [' '] := rfl

theorem append_space_inj :
    ∀ (b d xs ys : List Char), ' ' ∉ xs → ' ' ∉ ys →
      b ++ ' ' :: xs = d ++ ' ' :: ys → b = d ∧ xs = ys := by
  intro b
  induction b with
  | nil =>
    intro d xs ys hx hy h
    cases d with
    | nil =>
      simp only [List.nil_append, List.cons.injEq] at h
      exact ⟨rfl, h.2⟩
    | cons c d =>
      simp only [List.nil_append, List.cons_append, List.cons.injEq] at h
      exfalso
      apply hx
      rw [h.2]
      simp
  | cons a b ih =>
    intro d xs ys hx hy h
    cases d with
    | nil =>
      simp only [List.cons_append, List.nil_append, List.cons.injEq] at h
      exfalso
      apply hy
      rw [← h.2]
      simp
    | cons c d =>
      simp only [List.cons_append, List.cons.injEq] at h
      obtain ⟨hac, h2⟩ := h
      obtain ⟨hbd, hxy⟩ := ih d xs ys hx hy h2
      exact ⟨by rw [hac, hbd], hxy⟩

theorem figureKey_inj (l1 l2 : String) (p1 p2 : Nat)
    (h : figureKey l1 p1 = figureKey l2 p2) : l1 = l2 ∧ p1 = p2 := by
  have h1 := congrArg String.data h
  simp only [figureKey, str_data_append, space_data] at h1
  rw [List.append_assoc, List.append_assoc, List.singleton_append,
    List.singleton_append] at h1
  obtain ⟨hl, hp⟩ :=
    append_space_inj l1.data l2.data (natRepr p1).data (natRepr p2).data
      (natRepr_no_space p1) (natRepr_no_space p2) h1
  exact ⟨str_data_injective _ _ hl,
    natRepr_injective _ _ (str_data_injective _ _ hp)⟩

/-! #### Python dict semantics -/

theorem dictInsert_not_mem {G : Type} (d : List (String × Figure G)) (k : String)
    (v : Figure G) (h : ∀ kv ∈ d, kv.1 ≠ k) : dictInsert d k v = d ++ [(k, v)] := by
  induction d with
  | nil => rfl
  | cons kv rest ih =>
    obtain ⟨k', v'⟩ := kv
    simp only [dictInsert]
    rw [if_neg (h (k', v') (List.mem_cons_self _ _)), List.cons_append,
      ih fun kv hkv => h kv (List.mem_cons_of_mem _ hkv)]

theorem dictFold_eq {G : Type} :
    ∀ (l d : List (String × Figure G)),
      ((d ++ l).map Prod.fst).Nodup →
      l.foldl (fun acc kv => dictInsert acc kv.1 kv.2) d = d ++ l := by
  intro l
  induction l with
  | nil =>
    intro d _
    simp
  | cons kv l ih =>
    intro d h
    rw [List.foldl_cons]
    have hdisj : List.Disjoint (d.map Prod.fst) ((kv :: l).map Prod.fst) := by
      apply List.disjoint_of_nodup_append
      rw [← List.map_append]
      exact h
    have hnotin : ∀ p ∈ d, p.1 ≠ kv.1 := by
      intro p hp hpk
      exact hdisj (List.mem_map_of_mem _ hp)
        (by rw [hpk]; exact List.mem_map_of_mem _ (List.mem_cons_self _ _))
    rw [dictInsert_not_mem d kv.1 kv.2 hnotin]
    have hre : (d ++ [(kv.1, kv.2)]) ++ l = d ++ kv :: l := by simp
    rw [ih (d ++ [(kv.1, kv.2)]) (by rw [hre]; exact h), hre]

theorem dictOfList_eq_self {G : Type} (l : List (String × Figure G))
    (h : (l.map Prod.fst).Nodup) : dictOfList l = l := by
  have := dictFold_eq l [] (by simpa using h)
  simpa [dictOfList] using this

/-! #### Builder specification -/

theorem goVariations_spec {G : Type} (f : FolderInfo) (base : Nat × String)
    (name label : String) :
    ∀ (l : List (String × String)) (st : BuildState G),
      (goVariations f base name label st l).variable_labels = st.variable_labels ∧
      (goVariations f base name label st l).get_variable_functions =
        st.get_variable_functions ∧
      (goVariations f base name label st l).operators = st.operators ∧
      (goVariations f base name label st l).printed = st.printed ∧
      ∃ new ops,
        (goVariations f base name label st l).rows = st.rows ++ new ∧
        (goVariations f base name label st l).opened = st.opened ++ ops ∧
        (∀ e ∈ ops, e.kind = OpenKind.shock) ∧
        (∀ r ∈ new,
          r.folder = f.folder ∧ r.folder_label = f.label ∧ r.baseline = base ∧
          r.shock_name = name ∧ r.shock_label = label ∧
          (∃ p ∈ l, r.variation = p.1 ∧ r.variation_label = p.2) ∧
          r.database.2 = shockGdxPath f.folder name r.variation ∧
          (zip3 st.variable_labels st.get_variable_functions
            st.operators)[r.variable_index]? =
            some (r.variable_label, r.getter, r.operator)) ∧
        (∀ p ∈ l,
          ∀ i < (zip3 st.variable_labels st.get_variable_functions st.operators).length,
          ∃ r ∈ new, r.variable_index = i ∧ r.variation = p.1 ∧
            r.variation_label = p.2 ∧ r.shock_name = name) ∧
        new.map (fun r => r.variable_index) =
          (List.replicate l.length
            (List.range (zip3 st.variable_labels st.get_variable_functions
              st.operators).length)).flatten := by
  intro l
  induction l with
  | nil =>
    intro st
    refine ⟨rfl, rfl, rfl, rfl, [], [], by simp [goVariations], by simp [goVariations],
      ?_, ?_, ?_, ?_⟩
    · intro e he
      simp at he
    · intro r hr
      simp at hr
    · intro p hp
      simp at hp
    · simp
  | cons sv rest ih =>
    intro st
    obtain ⟨sfx, vlabel⟩ := sv
    -- one step of the loop
    set db : Nat × String := (st.nextId, shockGdxPath f.folder name sfx) with hdb
    set ev : OpenEvent := ⟨st.nextId, shockGdxPath f.folder name sfx, OpenKind.shock⟩
      with hev
    set newRows : List (Row G) :=
      (zip3 st.variable_labels st.get_variable_functions st.operators).enum.map
        (fun p => mkRow f name label sfx vlabel db base p.1 p.2) with hnewRows
    set st2 : BuildState G :=
      { st with
        opened := st.opened ++ [ev]
        nextId := st.nextId + 1
        rows := st.rows ++ newRows } with hst2
    have hstep : goVariations f base name label st ((sfx, vlabel) :: rest) =
        goVariations f base name label st2 rest := by
      simp only [goVariations]
    obtain ⟨ihvl, ihgv, ihop, ihpr, new', ops', ihrows, ihopened, ihkinds, ihprops,
      ihex, ihmap⟩ := ih st2
    have hvl2 : st2.variable_labels = st.variable_labels := rfl
    have hgv2 : st2.get_variable_functions = st.get_variable_functions := rfl
    have hop2 : st2.operators = st.operators := rfl
    refine ⟨by rw [hstep, ihvl], by rw [hstep, ihgv], by rw [hstep, ihop],
      by rw [hstep, ihpr], newRows ++ new', ev :: ops', ?_, ?_, ?_, ?_, ?_, ?_⟩
    · rw [hstep, ihrows]
      simp [hst2, List.append_assoc]
    · rw [hstep, ihopened]
      simp [hst2, List.append_assoc]
    · intro e he
      rcases List.mem_cons.mp he with he | he
      · rw [he, hev]
      · exact ihkinds e he
    · intro r hr
      rcases List.mem_append.mp hr with hr | hr
      · obtain ⟨p, hp, hrp⟩ := List.mem_map.mp hr
        obtain ⟨i, t⟩ := p
        have hget : (zip3 st.variable_labels st.get_variable_functions
            st.operators)[i]? = some t := List.mem_enum_iff_getElem?.mp hp
        subst hrp
        exact ⟨rfl, rfl, rfl, rfl, rfl, ⟨(sfx, vlabel), List.mem_cons_self _ _, rfl, rfl⟩,
          rfl, hget⟩
      · obtain ⟨h1, h2, h3, h4, h5, ⟨p, hp, hp1, hp2⟩, h7, h8⟩ := ihprops r hr
        refine ⟨h1, h2, h3, h4, h5, ⟨p, List.mem_cons_of_mem _ hp, hp1, hp2⟩, h7, ?_⟩
        rw [hvl2, hgv2, hop2] at h8
        exact h8
    · intro p hp i hi
      rcases List.mem_cons.mp hp with hp | hp
      · -- the head variation: the row for index i is in newRows
        subst hp
        have hival : i < (zip3 st.variable_labels st.get_variable_functions
            st.operators).length := hi
        set zl := zip3 st.variable_labels st.get_variable_functions st.operators
        have henum : (i, zl[i]) ∈ zl.enum := by
          apply List.mem_enum_iff_getElem?.mpr
          exact List.getElem?_eq_getElem hival
        refine ⟨mkRow f name label sfx vlabel db base i zl[i], ?_, rfl, rfl, rfl, rfl⟩
        apply List.mem_append_left
        rw [hnewRows]
        exact List.mem_map.mpr ⟨(i, zl[i]), henum, rfl⟩
      · obtain ⟨r, hr, hprops⟩ := ihex p hp i (by
          rw [hvl2, hgv2, hop2] at hi ⊢
          exact hi)
        exact ⟨r, List.mem_append_right _ hr, hprops⟩
    · rw [List.map_append, ihmap, hvl2, hgv2, hop2]
      have hmap1 : newRows.map (fun r => r.variable_index) =
          List.range (zip3 st.variable_labels st.get_variable_functions
            st.operators).length := by
        rw [hnewRows, List.map_map]
        have : ((fun r : Row G => r.variable_index) ∘
            fun p => mkRow f name label sfx vlabel db base p.1 p.2) = Prod.fst := by
          funext p
          rfl
        rw [this, List.enum_map_fst]
      rw [hmap1, List.length_cons, List.replicate_succ, List.flatten_cons]

theorem doShock_ok_cases {G : Type} (cfg : Config G) (fs : String → Bool)
    (f : FolderInfo) (base : Nat × String) (st : BuildState G)
    (name label : String) (sp : ShockPlotInfo G) (st1 : BuildState G)
    (hds : doShock cfg fs f base st name label sp = Except.ok st1) :
    (shock_files_exist cfg fs name = false ∧
      st1 = { st with printed := st.printed ++ [skipMsg name] }) ∨
    (shock_files_exist cfg fs name = true ∧
      ∃ v0 vlt g0 gt o0 ot,
        st.variable_labels = v0 :: vlt ∧
        st.get_variable_functions = g0 :: gt ∧
        st.operators = o0 :: ot ∧
        st1 = goVariations f base name label
          { st with
            variable_labels := specLabel cfg sp :: vlt
            get_variable_functions := sp.getter :: gt
            operators := sp.operator :: ot }
          (variationPairs cfg)) := by
  by_cases hex : shock_files_exist cfg fs name = true
  · right
    refine ⟨hex, ?_⟩
    cases hvl : st.variable_labels with
    | nil =>
      exfalso
      rw [doShock] at hds
      simp only [hex, if_true, hvl] at hds
      cases hds
    | cons v0 vlt =>
      cases hgv : st.get_variable_functions with
      | nil =>
        exfalso
        rw [doShock] at hds
        simp only [hex, if_true, hvl, hgv] at hds
        cases hds
      | cons g0 gt =>
        cases hop : st.operators with
        | nil =>
          exfalso
          rw [doShock] at hds
          simp only [hex, if_true, hvl, hgv, hop] at hds
          cases hds
        | cons o0 ot =>
          rw [doShock] at hds
          simp only [hex, if_true, hvl, hgv, hop, Except.ok.injEq] at hds
          exact ⟨v0, vlt, g0, gt, o0, ot, rfl, rfl, rfl, hds.symm⟩
  · left
    have hex' : shock_files_exist cfg fs name = false := by
      cases hb : shock_files_exist cfg fs name
      · rfl
      · exact absurd hb hex
    refine ⟨hex', ?_⟩
    rw [doShock] at hds
    simp only [hex', Bool.false_eq_true, if_false, Except.ok.injEq] at hds
    exact hds.symm

theorem doShocks_spec {G : Type} (cfg : Config G) (fs : String → Bool) (f : FolderInfo)
    (base : Nat × String) :
    ∀ (l : List (String × String × ShockPlotInfo G)) (st st' : BuildState G),
      doShocks cfg fs f base st l = Except.ok st' →
      (st'.variable_labels.length = st.variable_labels.length ∧
       st'.get_variable_functions.length = st.get_variable_functions.length ∧
       st'.operators.length = st.operators.length) ∧
      (st'.variable_labels.drop 1 = st.variable_labels.drop 1 ∧
       st'.get_variable_functions.drop 1 = st.get_variable_functions.drop 1 ∧
       st'.operators.drop 1 = st.operators.drop 1) ∧
      (∀ m ∈ st.printed, m ∈ st'.printed) ∧
      (∀ t ∈ l, shock_files_exist cfg fs t.1 = false → skipMsg t.1 ∈ st'.printed) ∧
      ∃ new ops,
        st'.rows = st.rows ++ new ∧
        st'.opened = st.opened ++ ops ∧
        (∀ e ∈ ops, e.kind = OpenKind.shock) ∧
        (∀ r ∈ new,
          r.folder = f.folder ∧ r.folder_label = f.label ∧ r.baseline = base ∧
          (∃ p ∈ variationPairs cfg, r.variation = p.1 ∧ r.variation_label = p.2) ∧
          r.database.2 = shockGdxPath f.folder r.shock_name r.variation ∧
          ∃ t ∈ l, r.shock_name = t.1 ∧ r.shock_label = t.2.1 ∧
            shock_files_exist cfg fs t.1 = true ∧
            (r.variable_index = 0 → r.variable_label = specLabel cfg t.2.2 ∧
              r.getter = t.2.2.getter ∧ r.operator = t.2.2.operator) ∧
            (∀ i, r.variable_index = i + 1 →
              st.variable_labels[i + 1]? = some r.variable_label ∧
              st.get_variable_functions[i + 1]? = some r.getter ∧
              st.operators[i + 1]? = some r.operator)) ∧
        (∀ t ∈ l, shock_files_exist cfg fs t.1 = true →
          ∀ i < min st.variable_labels.length
            (min st.get_variable_functions.length st.operators.length),
          ∀ p ∈ variationPairs cfg,
          ∃ r ∈ new, r.shock_name = t.1 ∧ r.shock_label = t.2.1 ∧
            r.variable_index = i ∧ r.variation = p.1) ∧
        ∃ m, new.map (fun r => r.variable_index) =
          (List.replicate m (List.range (min st.variable_labels.length
            (min st.get_variable_functions.length st.operators.length)))).flatten := by
  intro l
  induction l with
  | nil =>
    intro st st' h
    simp only [doShocks, Except.ok.injEq] at h
    subst h
    refine ⟨⟨rfl, rfl, rfl⟩, ⟨rfl, rfl, rfl⟩, fun m hm => hm, ?_, [], [], by simp, by simp,
      ?_, ?_, ?_, 0, by simp⟩
    · intro t ht
      simp at ht
    · intro e he
      simp at he
    · intro r hr
      simp at hr
    · intro t ht
      simp at ht
  | cons tpl rest ih =>
    intro st st' h
    obtain ⟨name, label, sp⟩ := tpl
    simp only [doShocks] at h
    cases hds : doShock cfg fs f base st name label sp with
    | error e =>
      rw [hds] at h
      cases h
    | ok st1 =>
      rw [hds] at h
      rcases doShock_ok_cases cfg fs f base st name label sp st1 hds with
        ⟨hex, hskip⟩ | ⟨hex, v0, vlt, g0, gt, o0, ot, hvl, hgv, hop, hrun⟩
      · -- the shock is skipped: only a printed message is added
        subst hskip
        obtain ⟨hlen, hdrop, hmono, hmsg, new, ops, hrows, hopened, hkinds, hprops,
          hexist, m, hmap⟩ := ih _ st' h
        refine ⟨hlen, hdrop, ?_, ?_, new, ops, hrows, hopened, hkinds, ?_, ?_, m, hmap⟩
        · intro msg hmsg'
          exact hmono msg (List.mem_append_left _ hmsg')
        · intro t ht htex
          rcases List.mem_cons.mp ht with ht | ht
          · subst ht
            exact hmono _ (List.mem_append_right _ (List.mem_singleton.mpr rfl))
          · exact hmsg t ht htex
        · intro r hr
          obtain ⟨h1, h2, h3, h4, h5, t, ht, hprop⟩ := hprops r hr
          exact ⟨h1, h2, h3, h4, h5, t, List.mem_cons_of_mem _ ht, hprop⟩
        · intro t ht htex i hi p hp
          rcases List.mem_cons.mp ht with ht | ht
          · subst ht
            exact absurd htex (by simp [hex])
          · exact hexist t ht htex i hi p hp
      · -- the shock survives: index 0 is overridden, the variation loop runs
        subst hrun
        set stO : BuildState G :=
          { st with
            variable_labels := specLabel cfg sp :: vlt
            get_variable_functions := sp.getter :: gt
            operators := sp.operator :: ot } with hstO
        obtain ⟨gvl, ggv, gop, gpr, new1, ops1, grows, gopened, gkinds, gprops, gexist,
          gmap⟩ := goVariations_spec f base name label (variationPairs cfg) stO
        set st1 : BuildState G := goVariations f base name label stO (variationPairs cfg)
          with hst1
        obtain ⟨⟨ilen1, ilen2, ilen3⟩, ⟨idrop1, idrop2, idrop3⟩, imono, imsg, new2, ops2,
          irows, iopened, ikinds, iprops, iexist, m2, imap⟩ := ih st1 st' h
        have hminO : min stO.variable_labels.length
            (min stO.get_variable_functions.length stO.operators.length) =
            min st.variable_labels.length
              (min st.get_variable_functions.length st.operators.length) := by
          rw [hvl, hgv, hop]
          simp [hstO]
        have hzlen : (zip3 stO.variable_labels stO.get_variable_functions
            stO.operators).length =
            min st.variable_labels.length
              (min st.get_variable_functions.length st.operators.length) := by
          rw [zip3_length]
          exact hminO
        have hmin1 : min st1.variable_labels.length
            (min st1.get_variable_functions.length st1.operators.length) =
            min st.variable_labels.length
              (min st.get_variable_functions.length st.operators.length) := by
          rw [hst1, gvl, ggv, gop]
          exact hminO
        have hvl1 : st1.variable_labels = specLabel cfg sp :: vlt := by rw [hst1, gvl]
        have hgv1 : st1.get_variable_functions = sp.getter :: gt := by rw [hst1, ggv]
        have hop1 : st1.operators = sp.operator :: ot := by rw [hst1, gop]
        refine ⟨?_, ?_, ?_, ?_, new1 ++ new2, ops1 ++ ops2, ?_, ?_, ?_, ?_, ?_, ?_⟩
        · rw [ilen1, ilen2, ilen3, hvl1, hgv1, hop1, hvl, hgv, hop]
          exact ⟨rfl, rfl, rfl⟩
        · rw [idrop1, idrop2, idrop3, hvl1, hgv1, hop1, hvl, hgv, hop]
          exact ⟨rfl, rfl, rfl⟩
        · intro msg hmsg'
          apply imono
          rw [hst1, gpr]
          exact hmsg'
        · intro t ht htex
          rcases List.mem_cons.mp ht with ht | ht
          · subst ht
            rw [hex] at htex
            cases htex
          · exact imsg t ht htex
        · rw [irows, hst1, grows]
          have : stO.rows = st.rows := rfl
          rw [this, List.append_assoc]
        · rw [iopened, hst1, gopened]
          have : stO.opened = st.opened := rfl
          rw [this, List.append_assoc]
        · intro e he
          rcases List.mem_append.mp he with he | he
          · exact gkinds e he
          · exact ikinds e he
        · intro r hr
          rcases List.mem_append.mp hr with hr | hr
          · obtain ⟨h1, h2, h3, h4, h5, hvar, h7, h8⟩ := gprops r hr
            refine ⟨h1, h2, h3, hvar, by rw [h4]; exact h7,
              (name, label, sp), List.mem_cons_self _ _, h4, h5, hex, ?_, ?_⟩
            · intro h0
              rw [h0] at h8
              rw [hstO] at h8
              simp only [zip3_cons, List.getElem?_cons_zero, Option.some.injEq,
                Prod.mk.injEq] at h8
              exact ⟨h8.1.symm, h8.2.1.symm, h8.2.2.symm⟩
            · intro i hi
              rw [hi] at h8
              rw [hstO] at h8
              simp only [zip3_cons, List.getElem?_cons_succ] at h8
              obtain ⟨ha, hb, hc⟩ := (zip3_getElem?_eq_some vlt gt ot i _).mp h8
              rw [hvl, hgv, hop]
              simp only [List.getElem?_cons_succ]
              exact ⟨ha, hb, hc⟩
          · obtain ⟨h1, h2, h3, h4, h5, t, ht, ht1, ht2, ht3, ht4, ht5⟩ := iprops r hr
            refine ⟨h1, h2, h3, h4, h5, t, List.mem_cons_of_mem _ ht, ht1, ht2, ht3,
              ht4, ?_⟩
            intro i hi
            have := ht5 i hi
            rw [hvl1, hgv1, hop1] at this
            simp only [List.getElem?_cons_succ] at this
            rw [hvl, hgv, hop]
            simp only [List.getElem?_cons_succ]
            exact this
        · intro t ht htex i hi p hp
          rcases List.mem_cons.mp ht with ht | ht
          · subst ht
            obtain ⟨r, hr, hr1, hr2, hr3, hr4⟩ := gexist p hp i (by rw [hzlen]; exact hi)
            exact ⟨r, List.mem_append_left _ hr, hr4, (gprops r hr).2.2.2.2.1, hr1, hr2⟩
          · obtain ⟨r, hr, hrr⟩ := iexist t ht htex i (by rw [hmin1]; exact hi) p hp
            exact ⟨r, List.mem_append_right _ hr, hrr⟩
        · refine ⟨(variationPairs cfg).length + m2, ?_⟩
          rw [List.map_append, gmap, imap, hzlen, hmin1, List.replicate_add,
            List.flatten_append]

theorem buildGo_spec {G : Type} (cfg : Config G) (fs : String → Bool) :
    ∀ (l : List FolderInfo) (st st' : BuildState G),
      buildGo cfg fs st l = Except.ok st' →
      (st'.variable_labels.length = st.variable_labels.length ∧
       st'.get_variable_functions.length = st.get_variable_functions.length ∧
       st'.operators.length = st.operators.length) ∧
      (st'.variable_labels.drop 1 = st.variable_labels.drop 1 ∧
       st'.get_variable_functions.drop 1 = st.get_variable_functions.drop 1 ∧
       st'.operators.drop 1 = st.operators.drop 1) ∧
      (∀ m ∈ st.printed, m ∈ st'.printed) ∧
      (l ≠ [] → ∀ t ∈ shockTriples cfg, shock_files_exist cfg fs t.1 = false →
        skipMsg t.1 ∈ st'.printed) ∧
      ∃ new ops,
        st'.rows = st.rows ++ new ∧
        st'.opened = st.opened ++ ops ∧
        ((ops.filter fun e => decide (e.kind = OpenKind.base)).map fun e => e.path) =
          l.map (fun f => baselinePath f.folder) ∧
        (∀ r ∈ new, ∃ e ∈ ops, e.kind = OpenKind.base ∧
          e.path = baselinePath r.folder ∧ r.baseline = (e.id, e.path)) ∧
        (∀ r ∈ new,
          (∃ f ∈ l, r.folder = f.folder ∧ r.folder_label = f.label) ∧
          r.baseline.2 = baselinePath r.folder ∧
          (∃ p ∈ variationPairs cfg, r.variation = p.1 ∧ r.variation_label = p.2) ∧
          r.database.2 = shockGdxPath r.folder r.shock_name r.variation ∧
          ∃ t ∈ shockTriples cfg, r.shock_name = t.1 ∧ r.shock_label = t.2.1 ∧
            shock_files_exist cfg fs t.1 = true ∧
            (r.variable_index = 0 → r.variable_label = specLabel cfg t.2.2 ∧
              r.getter = t.2.2.getter ∧ r.operator = t.2.2.operator) ∧
            (∀ i, r.variable_index = i + 1 →
              st.variable_labels[i + 1]? = some r.variable_label ∧
              st.get_variable_functions[i + 1]? = some r.getter ∧
              st.operators[i + 1]? = some r.operator)) ∧
        (∀ f ∈ l, ∀ t ∈ shockTriples cfg, shock_files_exist cfg fs t.1 = true →
          ∀ i < min st.variable_labels.length
            (min st.get_variable_functions.length st.operators.length),
          ∀ p ∈ variationPairs cfg,
          ∃ r ∈ new, r.folder = f.folder ∧ r.shock_name = t.1 ∧ r.shock_label = t.2.1 ∧
            r.variable_index = i ∧ r.variation = p.1) ∧
        ∃ m, new.map (fun r => r.variable_index) =
          (List.replicate m (List.range (min st.variable_labels.length
            (min st.get_variable_functions.length st.operators.length)))).flatten := by
  intro l
  induction l with
  | nil =>
    intro st st' h
    simp only [buildGo, Except.ok.injEq] at h
    subst h
    refine ⟨⟨rfl, rfl, rfl⟩, ⟨rfl, rfl, rfl⟩, fun m hm => hm, fun hne => absurd rfl hne,
      [], [], by simp, by simp, by simp, ?_, ?_, ?_, 0, by simp⟩
    · intro r hr
      simp at hr
    · intro r hr
      simp at hr
    · intro f hf
      simp at hf
  | cons f rest ih =>
    intro st st' h
    simp only [buildGo] at h
    cases hdf : doFolder cfg fs st f with
    | error e =>
      rw [hdf] at h
      cases h
    | ok stA =>
      rw [hdf] at h
      -- unfold doFolder
      set base : Nat × String := (st.nextId, baselinePath f.folder) with hbase
      set bev : OpenEvent := ⟨st.nextId, baselinePath f.folder, OpenKind.base⟩ with hbev
      set st1 : BuildState G :=
        { st with opened := st.opened ++ [bev], nextId := st.nextId + 1 } with hst1
      have hdf' : doShocks cfg fs f base st1 (shockTriples cfg) = Except.ok stA := hdf
      obtain ⟨⟨alen1, alen2, alen3⟩, ⟨adrop1, adrop2, adrop3⟩, amono, amsg, newA, opsA,
        arows, aopened, akinds, aprops, aexist, mA, amap⟩ :=
        doShocks_spec cfg fs f base (shockTriples cfg) st1 stA hdf'
      obtain ⟨⟨blen1, blen2, blen3⟩, ⟨bdrop1, bdrop2, bdrop3⟩, bmono, bmsg, newB, opsB,
        brows, bopened, bbase, bkinds, bprops, bexist, mB, bmap⟩ := ih stA st' h
      have hst1vl : st1.variable_labels = st.variable_labels := rfl
      have hst1gv : st1.get_variable_functions = st.get_variable_functions := rfl
      have hst1op : st1.operators = st.operators := rfl
      have hminA : min stA.variable_labels.length
          (min stA.get_variable_functions.length stA.operators.length) =
          min st.variable_labels.length
            (min st.get_variable_functions.length st.operators.length) := by
        rw [alen1, alen2, alen3]
      have hdropA1 : stA.variable_labels.drop 1 = st.variable_labels.drop 1 := adrop1
      have hdropA2 : stA.get_variable_functions.drop 1 =
          st.get_variable_functions.drop 1 := adrop2
      have hdropA3 : stA.operators.drop 1 = st.operators.drop 1 := adrop3
      have hgetA : ∀ i : Nat,
          stA.variable_labels[i + 1]? = st.variable_labels[i + 1]? ∧
          stA.get_variable_functions[i + 1]? = st.get_variable_functions[i + 1]? ∧
          stA.operators[i + 1]? = st.operators[i + 1]? := by
        intro i
        refine ⟨?_, ?_, ?_⟩
        · rw [show i + 1 = 1 + i by omega, ← List.getElem?_drop, ← List.getElem?_drop,
            hdropA1]
        · rw [show i + 1 = 1 + i by omega, ← List.getElem?_drop, ← List.getElem?_drop,
            hdropA2]
        · rw [show i + 1 = 1 + i by omega, ← List.getElem?_drop, ← List.getElem?_drop,
            hdropA3]
      refine ⟨⟨by rw [blen1, alen1], by rw [blen2, alen2], by rw [blen3, alen3]⟩,
        ⟨by rw [bdrop1, hdropA1], by rw [bdrop2, hdropA2], by rw [bdrop3, hdropA3]⟩,
        ?_, ?_, newA ++ newB, bev :: (opsA ++ opsB), ?_, ?_, ?_, ?_, ?_, ?_, ?_⟩
      · intro msg hmsg
        exact bmono msg (amono msg hmsg)
      · intro _ t ht htex
        exact bmono _ (amsg t ht htex)
      · rw [brows, arows]
        have : st1.rows = st.rows := rfl
        rw [this, List.append_assoc]
      · rw [bopened, aopened, hst1]
        simp
      · rw [List.filter_cons]
        have hbevbase : decide (bev.kind = OpenKind.base) = true := by
          rw [hbev]
          simp
        rw [hbevbase]
        simp only [if_true]
        rw [List.filter_append]
        have hA : opsA.filter (fun e => decide (e.kind = OpenKind.base)) = [] := by
          apply List.filter_eq_nil_iff.mpr
          intro e he
          have := akinds e he
          simp [this]
        rw [hA, List.nil_append, List.map_cons, bbase]
        rfl
      · intro r hr
        rcases List.mem_append.mp hr with hr | hr
        · refine ⟨bev, List.mem_cons_self _ _, by rw [hbev], ?_, ?_⟩
          · rw [hbev, (aprops r hr).1]
          · rw [(aprops r hr).2.2.1, hbase, hbev]
        · obtain ⟨e, he, hk, hp, hb⟩ := bkinds r hr
          exact ⟨e, List.mem_cons_of_mem _ (List.mem_append_right _ he), hk, hp, hb⟩
      · intro r hr
        rcases List.mem_append.mp hr with hr | hr
        · obtain ⟨h1, h2, h3, h4, h5, t, ht, ht1, ht2, ht3, ht4, ht5⟩ := aprops r hr
          refine ⟨⟨f, List.mem_cons_self _ _, h1, h2⟩, ?_, h4, by rw [h1]; exact h5,
            t, ht, ht1, ht2, ht3, ht4, ?_⟩
          · rw [h3, hbase, h1]
          · intro i hi
            have := ht5 i hi
            rw [hst1vl, hst1gv, hst1op] at this
            exact this
        · obtain ⟨⟨f', hf', hff⟩, h2, h3, h4, t, ht, ht1, ht2, ht3, ht4, ht5⟩ :=
            bprops r hr
          refine ⟨⟨f', List.mem_cons_of_mem _ hf', hff⟩, h2, h3, h4, t, ht, ht1, ht2,
            ht3, ht4, ?_⟩
          intro i hi
          obtain ⟨g1, g2, g3⟩ := ht5 i hi
          obtain ⟨e1, e2, e3⟩ := hgetA i
          exact ⟨e1 ▸ g1, e2 ▸ g2, e3 ▸ g3⟩
      · intro f' hf' t ht htex i hi p hp
        rcases List.mem_cons.mp hf' with hf' | hf'
        · subst hf'
          obtain ⟨r, hr, hr1, hr2, hr3, hr4⟩ := aexist t ht htex i (by
            rw [hst1vl, hst1gv, hst1op] at hi ⊢
            exact hi) p hp
          exact ⟨r, List.mem_append_left _ hr, (aprops r hr).1, hr1, hr2, hr3, hr4⟩
        · obtain ⟨r, hr, hrr⟩ := bexist f' hf' t ht htex i (by rw [hminA]; exact hi) p hp
          exact ⟨r, List.mem_append_right _ hr, hrr⟩
      · refine ⟨mA + mB, ?_⟩
        rw [List.map_append, amap, bmap, hst1vl, hst1gv, hst1op, hminA,
          List.replicate_add, List.flatten_append]

theorem build_spec {G : Type} (cfg : Config G) (fs : String → Bool) (st : BuildState G)
    (hb : build cfg fs = Except.ok st) :
    (cfg.gdx_folders_info ≠ [] → ∀ t ∈ shockTriples cfg,
      shock_files_exist cfg fs t.1 = false → skipMsg t.1 ∈ st.printed) ∧
    ((st.opened.filter fun e => decide (e.kind = OpenKind.base)).map fun e => e.path) =
      cfg.gdx_folders_info.map (fun f => baselinePath f.folder) ∧
    (∀ r ∈ st.rows, ∃ e ∈ st.opened, e.kind = OpenKind.base ∧
      e.path = baselinePath r.folder ∧ r.baseline = (e.id, e.path)) ∧
    (∀ r ∈ st.rows,
      (∃ f ∈ cfg.gdx_folders_info, r.folder = f.folder ∧ r.folder_label = f.label) ∧
      r.baseline.2 = baselinePath r.folder ∧
      (∃ p ∈ variationPairs cfg, r.variation = p.1 ∧ r.variation_label = p.2) ∧
      r.database.2 = shockGdxPath r.folder r.shock_name r.variation ∧
      ∃ t ∈ shockTriples cfg, r.shock_name = t.1 ∧ r.shock_label = t.2.1 ∧
        shock_files_exist cfg fs t.1 = true ∧
        (r.variable_index = 0 → r.variable_label = specLabel cfg t.2.2 ∧
          r.getter = t.2.2.getter ∧ r.operator = t.2.2.operator) ∧
        (∀ i, r.variable_index = i + 1 →
          (variable_labels_init cfg)[i + 1]? = some r.variable_label ∧
          cfg.get_variable_functions[i + 1]? = some r.getter ∧
          cfg.operators[i + 1]? = some r.operator)) ∧
    (∀ f ∈ cfg.gdx_folders_info, ∀ t ∈ shockTriples cfg,
      shock_files_exist cfg fs t.1 = true → ∀ i < minLen cfg, ∀ p ∈ variationPairs cfg,
      ∃ r ∈ st.rows, r.folder = f.folder ∧ r.shock_name = t.1 ∧ r.shock_label = t.2.1 ∧
        r.variable_index = i ∧ r.variation = p.1) ∧
    ∃ m, st.rows.map (fun r => r.variable_index) =
      (List.replicate m (List.range (minLen cfg))).flatten := by
  obtain ⟨_, _, _, hmsg, new, ops, hrows, hopened, hbasemap, hbevents, hprops, hexist,
    m, hmap⟩ := buildGo_spec cfg fs cfg.gdx_folders_info (initState cfg) st hb
  have hrows' : st.rows = new := by
    rw [hrows]
    rfl
  have hopened' : st.opened = ops := by
    rw [hopened]
    rfl
  have hminlen : min (initState cfg).variable_labels.length
      (min (initState cfg).get_variable_functions.length
        (initState cfg).operators.length) = minLen cfg := rfl
  subst hrows'
  refine ⟨?_, ?_, ?_, ?_, ?_, m, ?_⟩
  · intro hne t ht htex
    exact hmsg hne t ht htex
  · rw [hopened']
    exact hbasemap
  · intro r hr
    obtain ⟨e, he, hprop⟩ := hbevents r hr
    exact ⟨e, by rw [hopened']; exact he, hprop⟩
  · intro r hr
    exact hprops r hr
  · intro f hf t ht htex i hi p hp
    exact hexist f hf t ht htex i (by rw [hminlen]; exact hi) p hp
  · rw [hmap, hminlen]

theorem runScript_eq_ok {G : Type} (cfg : Config G) (fs : String → Bool)
    (ev : Row G → Nat → Int) (st : BuildState G) (hb : build cfg fs = Except.ok st)
    (hne : st.rows ≠ []) : runScript cfg fs ev = Except.ok (scriptOutOf ev st) := by
  simp only [runScript, hb]
  rw [if_neg (by simp [List.isEmpty_iff, hne])]

theorem runScript_eq_err_empty {G : Type} (cfg : Config G) (fs : String → Bool)
    (ev : Row G → Nat → Int) (st : BuildState G) (hb : build cfg fs = Except.ok st)
    (he : st.rows = []) :
    runScript cfg fs ev = Except.error (Err.attributeError "variable_index") := by
  simp only [runScript, hb]
  rw [if_pos (by simp [List.isEmpty_iff, he])]

theorem runScript_ok_iff {G : Type} (cfg : Config G) (fs : String → Bool)
    (ev : Row G → Nat → Int) (out : ScriptOut G) :
    runScript cfg fs ev = Except.ok out ↔
      ∃ st, build cfg fs = Except.ok st ∧ st.rows ≠ [] ∧ out = scriptOutOf ev st := by
  constructor
  · intro h
    cases hb : build cfg fs with
    | error e =>
      simp only [runScript, hb] at h
      cases h
    | ok st =>
      by_cases hne : st.rows = []
      · rw [runScript_eq_err_empty cfg fs ev st hb hne] at h
        cases h
      · rw [runScript_eq_ok cfg fs ev st hb hne] at h
        rw [Except.ok.injEq] at h
        exact ⟨st, rfl, hne, h.symm⟩
  · rintro ⟨st, hb, hne, rfl⟩
    exact runScript_eq_ok cfg fs ev st hb hne

/-! #### Figures and reports -/

theorem figuresList_keys_nodup {G : Type} (df : List (DfRow G))
    (pages : List (List Nat)) : ((figuresList df pages).map Prod.fst).Nodup := by
  unfold figuresList
  rw [List.map_flatMap]
  apply List.nodup_flatMap.mpr
  constructor
  · intro lab _
    rw [List.map_map]
    have hcomp : (Prod.fst ∘ fun pc : Nat × List Nat =>
        (figureKey lab (pc.1 + 1),
         ({ label := lab, page := pc.1 + 1,
            data := df.filter fun d =>
              decide (d.row.shock_label = lab ∧ d.row.variable_index ∈ pc.2) } :
            Figure G))) = (fun i => figureKey lab (i + 1)) ∘ Prod.fst := rfl
    rw [hcomp, ← List.map_map, List.enum_map_fst]
    apply List.Nodup.map
    · intro i j hij
      have := (figureKey_inj lab lab (i + 1) (j + 1) hij).2
      omega
    · exact List.nodup_range _
  · apply List.Pairwise.imp ?_ (uniqueFirst_nodup _)
    intro lab1 lab2 hne
    intro x hx1 hx2
    obtain ⟨kv1, hkv1, hx1'⟩ := List.mem_map.mp hx1
    obtain ⟨pc1, _, hkv1'⟩ := List.mem_map.mp hkv1
    obtain ⟨kv2, hkv2, hx2'⟩ := List.mem_map.mp hx2
    obtain ⟨pc2, _, hkv2'⟩ := List.mem_map.mp hkv2
    rw [← hkv1'] at hx1'
    rw [← hkv2'] at hx2'
    have hkeys : figureKey lab1 (pc1.1 + 1) = figureKey lab2 (pc2.1 + 1) :=
      hx1'.trans hx2'.symm
    exact hne (figureKey_inj lab1 lab2 (pc1.1 + 1) (pc2.1 + 1) hkeys).1

theorem scriptOutOf_fields {G : Type} (ev : Row G → Nat → Int) (st : BuildState G) :
    (scriptOutOf ev st).df = dfRows ev st.rows ∧
    (scriptOutOf ev st).pages = divide_chunks
      (uniqueFirst ((dfRows ev st.rows).map fun d => d.row.variable_index))
      plots_pr_page ∧
    (scriptOutOf ev st).figures =
      figuresList (dfRows ev st.rows) (scriptOutOf ev st).pages ∧
    (scriptOutOf ev st).report = (scriptOutOf ev st).figures.map (fun kv => kv.2) ∧
    (scriptOutOf ev st).html = (scriptOutOf ev st).report ∧
    (scriptOutOf ev st).pdf = (scriptOutOf ev st).report ∧
    (scriptOutOf ev st).images =
      (figuresList (dfRows ev st.rows) (scriptOutOf ev st).pages).map
        (fun kv => imagePath kv.1) ∧
    (scriptOutOf ev st).state = st := by
  have hfig : (scriptOutOf ev st).figures =
      figuresList (dfRows ev st.rows) (scriptOutOf ev st).pages :=
    dictOfList_eq_self _ (figuresList_keys_nodup _ _)
  exact ⟨rfl, rfl, hfig, rfl, rfl, rfl, rfl, rfl⟩

theorem years_ne_nil : years ≠ [] := by decide

theorem dfRows_map_proj {G α : Type} (ev : Row G → Nat → Int) (rows : List (Row G))
    (g : Row G → α) :
    (dfRows ev rows).map (fun d => g d.row) =
      (List.replicate years.length (rows.map g)).flatten := by
  unfold dfRows
  rw [List.map_flatMap]
  have hinner : ∀ tt : Nat,
      ((rows.map fun r => (⟨tt, ev r tt, r⟩ : DfRow G)).map fun d => g d.row) =
        rows.map g := by
    intro tt
    rw [List.map_map]
    rfl
  have : (fun tt => ((rows.map fun r => (⟨tt, ev r tt, r⟩ : DfRow G)).map
      fun d => g d.row)) = fun _ => rows.map g := funext hinner
  rw [this, List.flatMap_def, List.map_const']

theorem mem_dfRows {G : Type} (ev : Row G → Nat → Int) (rows : List (Row G))
    (d : DfRow G) :
    d ∈ dfRows ev rows ↔ ∃ tt ∈ years, ∃ r ∈ rows, d = ⟨tt, ev r tt, r⟩ := by
  unfold dfRows
  rw [List.mem_flatMap]
  constructor
  · intro ⟨tt, htt, hd⟩
    obtain ⟨r, hr, hd'⟩ := List.mem_map.mp hd
    exact ⟨tt, htt, r, hr, hd'.symm⟩
  · intro ⟨tt, htt, r, hr, hd⟩
    exact ⟨tt, htt, List.mem_map.mpr ⟨r, hr, hd.symm⟩⟩

theorem uniqueFirst_dfRows_proj {G α : Type} [DecidableEq α] (ev : Row G → Nat → Int)
    (rows : List (Row G)) (g : Row G → α) :
    uniqueFirst ((dfRows ev rows).map fun d => g d.row) = uniqueFirst (rows.map g) := by
  rw [dfRows_map_proj]
  exact uniqueFirst_replicate_flatten years.length
    (List.length_pos.mpr years_ne_nil) _

theorem rows_idx_unique {G : Type} (cfg : Config G) (fs : String → Bool)
    (st : BuildState G) (hb : build cfg fs = Except.ok st) (hne : st.rows ≠ []) :
    0 < minLen cfg ∧
    uniqueFirst (st.rows.map fun r => r.variable_index) = List.range (minLen cfg) := by
  obtain ⟨_, _, _, _, _, m, hmap⟩ := build_spec cfg fs st hb
  have hm : 0 < m := by
    by_contra hm
    have : m = 0 := by omega
    subst this
    simp at hmap
    exact hne hmap
  have hlen : 0 < minLen cfg := by
    by_contra hlen
    have : minLen cfg = 0 := by omega
    rw [this] at hmap
    simp at hmap
    exact hne hmap
  refine ⟨hlen, ?_⟩
  rw [hmap, uniqueFirst_replicate_flatten m hm,
    uniqueFirst_eq_self_aux (List.range (minLen cfg)).length _ (le_refl _)
      (List.nodup_range _)]

theorem divide_chunks_mem_ne_nil {α : Type} (n : Nat) (hn : 0 < n) :
    ∀ k, ∀ l : List α, l.length ≤ k → ∀ c ∈ divide_chunks l n, c ≠ [] := by
  intro k
  induction k with
  | zero =>
    intro l hl c hc
    have : l = [] := List.length_eq_zero.mp (Nat.le_zero.mp hl)
    subst this
    rw [divide_chunks_nil] at hc
    simp at hc
  | succ k ih =>
    intro l hl c hc
    by_cases hnil : l = []
    · subst hnil
      rw [divide_chunks_nil] at hc
      simp at hc
    · have hlen : 0 < l.length := List.length_pos.mpr hnil
      rw [divide_chunks_cons l n hnil (by omega)] at hc
      rcases List.mem_cons.mp hc with hc | hc
      · subst hc
        intro htake
        have := congrArg List.length htake
        simp only [List.length_take, List.length_nil] at this
        omega
      · exact ih (l.drop n) (by simp only [List.length_drop]; omega) c hc

theorem divide_chunks_mem_subset {α : Type} (n : Nat) (hn : 0 < n) (l : List α)
    (c : List α) (hc : c ∈ divide_chunks l n) : ∀ x ∈ c, x ∈ l := by
  intro x hx
  have : x ∈ (divide_chunks l n).flatten := List.mem_flatten.mpr ⟨c, hc, hx⟩
  rwa [divide_chunks_join n hn l] at this

theorem filter_eq_length_one {α : Type} [DecidableEq α] :
    ∀ (ps : List α) (X : α), ps.Nodup → X ∈ ps →
      (ps.filter fun p => decide (p = X)).length = 1 := by
  intro ps X
  induction ps with
  | nil =>
    intro _ h
    simp at h
  | cons p ps ih =>
    intro hnd hmem
    rw [List.filter_cons]
    by_cases hp : p = X
    · subst hp
      simp only [decide_eq_true_eq, if_pos rfl, decide_True, if_true]
      have hnotin : p ∉ ps := (List.nodup_cons.mp hnd).1
      have hzero : ps.filter (fun q => decide (q = p)) = [] := by
        apply List.filter_eq_nil_iff.mpr
        intro q hq
        simp only [decide_eq_true_eq]
        intro hqp
        exact hnotin (hqp ▸ hq)
      rw [List.length_cons, hzero]
      rfl
    · rw [if_neg (by simp [hp])]
      have hmem' : X ∈ ps := by
        rcases List.mem_cons.mp hmem with h | h
        · exact absurd h.symm hp
        · exact h
      exact ih (List.nodup_cons.mp hnd).2 hmem'

theorem baselinePath_injective (a b : String) (h : baselinePath a = baselinePath b) :
    a = b := by
  unfold baselinePath at h
  have := congrArg String.data h
  rw [str_data_append, str_data_append] at this
  exact str_data_injective a b (List.append_cancel_right this)

theorem filter_label_flatMap {G : Type} (pageMap : String → List (String × Figure G))
    (N : Nat) (hlab : ∀ lab, ∀ kv ∈ pageMap lab, kv.2.label = lab)
    (hlen : ∀ lab, (pageMap lab).length = N) (L : String) :
    ∀ labs : List String, labs.Nodup → L ∈ labs →
      ((labs.flatMap pageMap).filter fun kv => decide (kv.2.label = L)).length = N := by
  intro labs
  induction labs with
  | nil =>
    intro _ h
    simp at h
  | cons lab labs ih =>
    intro hnd hmem
    rw [List.flatMap_cons, List.filter_append, List.length_append]
    rcases List.mem_cons.mp hmem with heq | hmem'
    · subst heq
      have h1 : (pageMap L).filter (fun kv => decide (kv.2.label = L)) = pageMap L := by
        apply List.filter_eq_self.mpr
        intro kv hkv
        simp [hlab L kv hkv]
      have hnotin : L ∉ labs := (List.nodup_cons.mp hnd).1
      have h2 : (labs.flatMap pageMap).filter
          (fun kv => decide (kv.2.label = L)) = [] := by
        apply List.filter_eq_nil_iff.mpr
        intro kv hkv
        obtain ⟨lab', hlab', hkv'⟩ := List.mem_flatMap.mp hkv
        rw [hlab lab' kv hkv']
        simp only [decide_eq_true_eq]
        intro hcon
        exact hnotin (hcon ▸ hlab')
      rw [h1, h2, hlen]
      simp
    · have hlabne : lab ≠ L := by
        intro hcon
        exact (List.nodup_cons.mp hnd).1 (hcon ▸ hmem')
      have h1 : (pageMap lab).filter (fun kv => decide (kv.2.label = L)) = [] := by
        apply List.filter_eq_nil_iff.mpr
        intro kv hkv
        rw [hlab lab kv hkv]
        simp only [decide_eq_true_eq]
        exact hlabne
      rw [h1, ih (List.nodup_cons.mp hnd).2 hmem']
      simp

theorem figuresList_count_label {G : Type} (df : List (DfRow G))
    (pages : List (List Nat)) (L : String)
    (hL : L ∈ uniqueFirst (df.map fun d => d.row.shock_label)) :
    ((figuresList df pages).filter fun kv => decide (kv.2.label = L)).length =
      pages.length := by
  unfold figuresList
  apply filter_label_flatMap _ pages.length ?_ ?_ L _ (uniqueFirst_nodup _) hL
  · intro lab kv hkv
    obtain ⟨pc, _, hkv'⟩ := List.mem_map.mp hkv
    rw [← hkv']
  · intro lab
    rw [List.length_map, List.enum_length]

theorem mem_figuresList {G : Type} (df : List (DfRow G)) (pages : List (List Nat))
    (kv : String × Figure G) :
    kv ∈ figuresList df pages ↔
      ∃ lab ∈ uniqueFirst (df.map fun d => d.row.shock_label),
        ∃ k chunk, pages[k]? = some chunk ∧
          kv = (figureKey lab (k + 1),
            { label := lab, page := k + 1,
              data := df.filter fun d =>
                decide (d.row.shock_label = lab ∧ d.row.variable_index ∈ chunk) }) := by
  unfold figuresList
  rw [List.mem_flatMap]
  constructor
  · rintro ⟨lab, hlab, hkv⟩
    obtain ⟨pc, hpc, hkv'⟩ := List.mem_map.mp hkv
    obtain ⟨k, chunk⟩ := pc
    exact ⟨lab, hlab, k, chunk, List.mem_enum_iff_getElem?.mp hpc, hkv'.symm⟩
  · rintro ⟨lab, hlab, k, chunk, hk, rfl⟩
    exact ⟨lab, hlab,
      List.mem_map.mpr ⟨(k, chunk), List.mem_enum_iff_getElem?.mpr hk, rfl⟩⟩

theorem surviving_shock_rows {G : Type} (cfg : Config G) (fs : String → Bool)
    (st : BuildState G) (hb : build cfg fs = Except.ok st) (hne : st.rows ≠ [])
    (t : String × String × ShockPlotInfo G) (ht : t ∈ shockTriples cfg)
    (htex : shock_files_exist cfg fs t.1 = true) :
    ∀ i < minLen cfg, ∃ r ∈ st.rows, r.shock_name = t.1 ∧ r.shock_label = t.2.1 ∧
      r.variable_index = i := by
  obtain ⟨_, _, _, hprops, hexist, _⟩ := build_spec cfg fs st hb
  obtain ⟨r0, hr0⟩ := List.exists_mem_of_ne_nil _ hne
  obtain ⟨⟨f0, hf0, _⟩, _, ⟨p0, hp0, _⟩, _⟩ := hprops r0 hr0
  intro i hi
  obtain ⟨r, hr, _, h2, h3, h4, _⟩ := hexist f0 hf0 t ht htex i hi p0 hp0
  exact ⟨r, hr, h2, h3, h4⟩

theorem doShocks_all_skip {G : Type} (cfg : Config G) (fs : String → Bool)
    (f : FolderInfo) (base : Nat × String) :
    ∀ (l : List (String × String × ShockPlotInfo G)) (st : BuildState G),
      (∀ t ∈ l, shock_files_exist cfg fs t.1 = false) →
      ∃ st', doShocks cfg fs f base st l = Except.ok st' ∧ st'.rows = st.rows := by
  intro l
  induction l with
  | nil =>
    intro st _
    exact ⟨st, rfl, rfl⟩
  | cons tpl rest ih =>
    intro st hall
    obtain ⟨name, label, sp⟩ := tpl
    have hex : shock_files_exist cfg fs name = false :=
      hall (name, label, sp) (List.mem_cons_self _ _)
    have hds : doShock cfg fs f base st name label sp =
        Except.ok { st with printed := st.printed ++ [skipMsg name] } := by
      rw [doShock]
      simp [hex]
    obtain ⟨st', hst', hrows⟩ :=
      ih { st with printed := st.printed ++ [skipMsg name] }
        (fun t ht => hall t (List.mem_cons_of_mem _ ht))
    refine ⟨st', ?_, hrows⟩
    simp only [doShocks, hds]
    exact hst'

theorem buildGo_all_skip {G : Type} (cfg : Config G) (fs : String → Bool)
    (hall : ∀ t ∈ shockTriples cfg, shock_files_exist cfg fs t.1 = false) :
    ∀ (l : List FolderInfo) (st : BuildState G),
      ∃ st', buildGo cfg fs st l = Except.ok st' ∧ st'.rows = st.rows := by
  intro l
  induction l with
  | nil =>
    intro st
    exact ⟨st, rfl, rfl⟩
  | cons f rest ih =>
    intro st
    obtain ⟨stA, hstA, hrowsA⟩ := doShocks_all_skip cfg fs f
      (st.nextId, baselinePath f.folder) (shockTriples cfg)
      { st with
        opened := st.opened ++ [⟨st.nextId, baselinePath f.folder, OpenKind.base⟩]
        nextId := st.nextId + 1 }
      hall
    obtain ⟨st', hst', hrows'⟩ := ih stA
    refine ⟨st', ?_, by rw [hrows', hrowsA]⟩
    simp only [buildGo]
    rw [show doFolder cfg fs st f = Except.ok stA from hstA]
    exact hst'

/-! ### Claims -/

/-- Claim C3: `shock_files_exist(shock)` returns `true` if and only if, for
every configured model-version folder and every configured variation suffix,
the file `<folder>\<shock><suffix>.gdx` exists; it is a total boolean check
(no error is raised for missing files), and a failing shock is skipped with
only a printed console notice — it contributes no combination rows. -/
theorem shock_files_exist_correct {G : Type} (cfg : Config G) (fs : String → Bool)
    (S : String) :
    (shock_files_exist cfg fs S = true ↔
      ∀ v ∈ cfg.variations_info, ∀ f ∈ cfg.gdx_folders_info,
        fs (shockGdxPath f.folder S v.suffix) = true) ∧
    (∀ st, build cfg fs = Except.ok st → shock_files_exist cfg fs S = false →
      cfg.gdx_folders_info ≠ [] → (∃ t ∈ shockTriples cfg, t.1 = S) →
      skipMsg S ∈ st.printed ∧ ∀ r ∈ st.rows, r.shock_name ≠ S) := by
  constructor
  · unfold shock_files_exist
    simp [List.all_eq_true]
  · rintro st hb hex hfolders ⟨t, ht, htS⟩
    obtain ⟨hmsg, _, _, hprops, _, _⟩ := build_spec cfg fs st hb
    constructor
    · have := hmsg hfolders t ht (by rw [htS]; exact hex)
      rw [htS] at this
      exact this
    · intro r hr hrS
      obtain ⟨_, _, _, _, t', _, ht1, _, htex', _⟩ := hprops r hr
      rw [hrS] at ht1
      rw [← ht1] at htex'
      rw [htex'] at hex
      cases hex

/-- Witness for C3 on the example configuration: shock `"b"` has a missing
file, is skipped with a console notice, and contributes no rows. -/
theorem shock_files_exist_correct_witness :
    shock_files_exist cfgEx fsEx "b" = false ∧
    (shock_files_exist cfgEx fsEx "b" = true ↔
      ∀ v ∈ cfgEx.variations_info, ∀ f ∈ cfgEx.gdx_folders_info,
        fsEx (shockGdxPath f.folder "b" v.suffix) = true) ∧
    (skipMsg "b" ∈ stEx.printed ∧ ∀ r ∈ stEx.rows, r.shock_name ≠ "b") :=
  ⟨by decide, (shock_files_exist_correct cfgEx fsEx "b").1,
    (shock_files_exist_correct cfgEx fsEx "b").2 stEx rfl (by decide) (by decide)
      ⟨("b", "Bb", ⟨"hb", "hb", 11, "pm"⟩), by decide, rfl⟩⟩

/-- Claim C1: every combination row's `baseline` is the `baseline.gdx` handle
of the row's own model-version folder; for each configured folder the
baseline is opened exactly once and all rows of that folder share that one
handle; and every row's database path lives in the same folder as its
baseline path (no cross-folder mixing). -/
theorem baseline_per_folder {G : Type} (cfg : Config G) (fs : String → Bool)
    (st : BuildState G) (hb : build cfg fs = Except.ok st)
    (hnd : (cfg.gdx_folders_info.map fun f => f.folder).Nodup) :
    (∀ r ∈ st.rows, r.baseline.2 = baselinePath r.folder ∧
      r.database.2 = shockGdxPath r.folder r.shock_name r.variation) ∧
    (∀ f ∈ cfg.gdx_folders_info,
      (st.opened.filter fun e =>
        decide (e.kind = OpenKind.base ∧ e.path = baselinePath f.folder)).length = 1) ∧
    (∀ r ∈ st.rows, ∀ r' ∈ st.rows, r.folder = r'.folder → r.baseline = r'.baseline) := by
  obtain ⟨_, hbasemap, hbevents, hprops, _, _⟩ := build_spec cfg fs st hb
  have hpathsnd : ((st.opened.filter fun e => decide (e.kind = OpenKind.base)).map
      fun e => e.path).Nodup := by
    rw [hbasemap]
    have hmm : cfg.gdx_folders_info.map (fun f => baselinePath f.folder) =
        (cfg.gdx_folders_info.map fun f => f.folder).map baselinePath := by
      rw [List.map_map]
      rfl
    rw [hmm]
    exact hnd.map (fun a b h => baselinePath_injective a b h)
  refine ⟨?_, ?_, ?_⟩
  · intro r hr
    obtain ⟨_, h2, _, h4, _⟩ := hprops r hr
    exact ⟨h2, h4⟩
  · intro f hf
    have hsplit : (st.opened.filter fun e =>
        decide (e.kind = OpenKind.base ∧ e.path = baselinePath f.folder)) =
        ((st.opened.filter fun e => decide (e.kind = OpenKind.base)).filter
          fun e => decide (e.path = baselinePath f.folder)) := by
      rw [List.filter_filter]
      apply List.filter_congr
      intro e _
      simp [Bool.decide_and, Bool.and_comm]
    rw [hsplit]
    have hfm : ((st.opened.filter fun e => decide (e.kind = OpenKind.base)).map
          fun e => e.path).filter (fun p => decide (p = baselinePath f.folder)) =
        ((st.opened.filter fun e => decide (e.kind = OpenKind.base)).filter
          fun e => decide (e.path = baselinePath f.folder)).map fun e => e.path := by
      rw [List.filter_map]
      rfl
    have hlen := congrArg List.length hfm
    rw [List.length_map] at hlen
    rw [← hlen, hbasemap]
    apply filter_eq_length_one
    · rw [show cfg.gdx_folders_info.map (fun f => baselinePath f.folder) =
          (cfg.gdx_folders_info.map fun f => f.folder).map baselinePath from by
            rw [List.map_map]; rfl]
      exact hnd.map (fun a b h => baselinePath_injective a b h)
    · exact List.mem_map.mpr ⟨f, hf, rfl⟩
  · intro r hr r' hr' hfolder
    obtain ⟨e, he, hk, hp, hbl⟩ := hbevents r hr
    obtain ⟨e', he', hk', hp', hbl'⟩ := hbevents r' hr'
    have hmem : e ∈ st.opened.filter fun e => decide (e.kind = OpenKind.base) :=
      List.mem_filter.mpr ⟨he, by simp [hk]⟩
    have hmem' : e' ∈ st.opened.filter fun e => decide (e.kind = OpenKind.base) :=
      List.mem_filter.mpr ⟨he', by simp [hk']⟩
    have hpeq : e.path = e'.path := by
      rw [hp, hp', hfolder]
    have : e = e' :=
      List.inj_on_of_nodup_map hpathsnd hmem hmem' hpeq
    rw [hbl, hbl', this]

/-- Witness for C1 on the example configuration. -/
theorem baseline_per_folder_witness :
    (cfgEx.gdx_folders_info.map fun f => f.folder).Nodup ∧
    ((∀ r ∈ stEx.rows, r.baseline.2 = baselinePath r.folder ∧
      r.database.2 = shockGdxPath r.folder r.shock_name r.variation) ∧
    (∀ f ∈ cfgEx.gdx_folders_info,
      (stEx.opened.filter fun e =>
        decide (e.kind = OpenKind.base ∧ e.path = baselinePath f.folder)).length = 1) ∧
    (∀ r ∈ stEx.rows, ∀ r' ∈ stEx.rows, r.folder = r'.folder →
      r.baseline = r'.baseline)) :=
  ⟨by decide, baseline_per_folder cfgEx fsEx stEx rfl (by decide)⟩

/-- Claim C6: for every surviving shock, the rows with `variable_index = 0`
carry exactly that shock's specific `(label, getter, operator)` triple, and
every row with `variable_index ≥ 1` carries the unmodified generic configured
triple at its index — independent of which shocks were processed earlier. -/
theorem headline_override {G : Type} (cfg : Config G) (fs : String → Bool)
    (st : BuildState G) (hb : build cfg fs = Except.ok st)
    (hnd : cfg.shock_names.Nodup) (S L : String) (sp : ShockPlotInfo G)
    (ht : (S, L, sp) ∈ shockTriples cfg) :
    ∀ r ∈ st.rows, r.shock_name = S →
      (r.variable_index = 0 → r.variable_label = specLabel cfg sp ∧
        r.getter = sp.getter ∧ r.operator = sp.operator) ∧
      (∀ i, r.variable_index = i + 1 →
        (variable_labels_init cfg)[i + 1]? = some r.variable_label ∧
        cfg.get_variable_functions[i + 1]? = some r.getter ∧
        cfg.operators[i + 1]? = some r.operator) := by
  obtain ⟨_, _, _, hprops, _, _⟩ := build_spec cfg fs st hb
  intro r hr hrS
  obtain ⟨_, _, _, _, t, ht', ht1, _, _, hidx0, hidxS⟩ := hprops r hr
  have hteq : t = (S, L, sp) := by
    apply zip3_unique_of_nodup _ _ _ t (S, L, sp) hnd ht' ht
    rw [← ht1, hrS]
  subst hteq
  exact ⟨hidx0, hidxS⟩

/-- Witness for C6 on the example configuration: shock `"a"` survives, its
index-0 rows carry the shock-specific triple, its other rows the generic
configuration. -/
theorem headline_override_witness :
    cfgEx.shock_names.Nodup ∧
    (("a", "A", (⟨"ha", "ha", 10, "pq"⟩ : ShockPlotInfo Nat)) ∈ shockTriples cfgEx) ∧
    (∀ r ∈ stEx.rows, r.shock_name = "a" →
      (r.variable_index = 0 → r.variable_label =
          specLabel cfgEx ⟨"ha", "ha", 10, "pq"⟩ ∧
        r.getter = (10 : Nat) ∧ r.operator = "pq") ∧
      (∀ i, r.variable_index = i + 1 →
        (variable_labels_init cfgEx)[i + 1]? = some r.variable_label ∧
        cfgEx.get_variable_functions[i + 1]? = some r.getter ∧
        cfgEx.operators[i + 1]? = some r.operator)) :=
  ⟨by decide, by decide,
    headline_override cfgEx fsEx stEx rfl (by decide) "a" "A" ⟨"ha", "ha", 10, "pq"⟩
      (by decide)⟩

/-- Claim C9: when no configured shock survives the file-existence filter (or
the shock list is empty), the combination table is built as an empty
dataframe, and the run fails with an uncaught attribute-access error at the
pagination step (`df.variable_index`), producing no image, HTML, or PDF
output. -/
theorem empty_table_crash {G : Type} (cfg : Config G) (fs : String → Bool)
    (ev : Row G → Nat → Int)
    (h : cfg.shock_names = [] ∨
      ∀ s ∈ cfg.shock_names, shock_files_exist cfg fs s = false) :
    (∃ st, build cfg fs = Except.ok st ∧ st.rows = []) ∧
    runScript cfg fs ev = Except.error (Err.attributeError "variable_index") := by
  have hall : ∀ t ∈ shockTriples cfg, shock_files_exist cfg fs t.1 = false := by
    intro t ht
    rcases h with h | h
    · exfalso
      unfold shockTriples at ht
      rw [h, zip3_nil_left] at ht
      simp at ht
    · exact h t.1 (zip3_mem_fst _ _ _ t ht)
  obtain ⟨st, hst, hrows⟩ :=
    buildGo_all_skip cfg fs hall cfg.gdx_folders_info (initState cfg)
  have hrows' : st.rows = [] := by
    rw [hrows]
    rfl
  exact ⟨⟨st, hst, hrows'⟩, runScript_eq_err_empty cfg fs ev st hst hrows'⟩

/-- Witness for C9: on a filesystem with no files, the example run builds an
empty table and aborts at the pagination step. -/
theorem empty_table_crash_witness :
    (cfgEx.shock_names = [] ∨
      ∀ s ∈ cfgEx.shock_names, shock_files_exist cfgEx fsNone s = false) ∧
    ((∃ st, build cfgEx fsNone = Except.ok st ∧ st.rows = []) ∧
    runScript cfgEx fsNone evEx = Except.error (Err.attributeError "variable_index")) :=
  ⟨Or.inr (by decide), empty_table_crash cfgEx fsNone evEx (Or.inr (by decide))⟩

/-- Claim C7: the exported HTML report and the exported PDF report each
contain exactly one entry per generated figure, in the exact order in which
the figures were generated (outer loop over shock labels, inner loop over
pages): the `figures` dict retains every generated `(name, figure)` pair in
insertion order (its keys are pairwise distinct), and both exporters receive
exactly that ordered collection. -/
theorem report_order {G : Type} (cfg : Config G) (fs : String → Bool)
    (ev : Row G → Nat → Int) (out : ScriptOut G)
    (hrun : runScript cfg fs ev = Except.ok out) :
    out.figures = figuresList out.df out.pages ∧
    (out.figures.map Prod.fst).Nodup ∧
    out.report = out.figures.map (fun kv => kv.2) ∧
    out.html = figures_to_html out.report ∧ out.html = out.report ∧
    out.pdf = figures_to_pdf out.report ∧ out.pdf = out.report ∧
    out.images = (figuresList out.df out.pages).map fun kv => imagePath kv.1 := by
  obtain ⟨st, hb, hne, rfl⟩ := (runScript_ok_iff cfg fs ev out).mp hrun
  obtain ⟨hdf, _, hfig, hreport, hhtml, hpdf, himg, _⟩ := scriptOutOf_fields ev st
  have hfig' : (scriptOutOf ev st).figures =
      figuresList (scriptOutOf ev st).df (scriptOutOf ev st).pages := by
    rw [hfig, hdf]
  refine ⟨hfig', ?_, hreport, ?_, hhtml, ?_, hpdf, ?_⟩
  · rw [hfig']
    exact figuresList_keys_nodup _ _
  · exact hhtml
  · exact hpdf
  · rw [himg, hdf]

/-- Witness for C7 on the example configuration. -/
theorem report_order_witness :
    outEx.figures = figuresList outEx.df outEx.pages ∧
    (outEx.figures.map Prod.fst).Nodup ∧
    outEx.report = outEx.figures.map (fun kv => kv.2) ∧
    outEx.html = figures_to_html outEx.report ∧ outEx.html = outEx.report ∧
    outEx.pdf = figures_to_pdf outEx.report ∧ outEx.pdf = outEx.report ∧
    outEx.images = (figuresList outEx.df outEx.pages).map fun kv => imagePath kv.1 :=
  report_order cfgEx fsEx evEx outEx rfl

/-- Claim C2: for a shock with at least one missing result file, no
combination rows are built for it in any folder, no figure's data contains
any of its rows, the HTML and PDF reports contain none of its data, and —
when no other configured shock shares its display label — no report entry
bears its label: the skip is total per shock. -/
theorem missing_files_skip_total {G : Type} (cfg : Config G) (fs : String → Bool)
    (ev : Row G → Nat → Int) (out : ScriptOut G)
    (hrun : runScript cfg fs ev = Except.ok out) (S : String)
    (hex : shock_files_exist cfg fs S = false) :
    (∀ r ∈ out.state.rows, r.shock_name ≠ S) ∧
    (∀ kv ∈ out.figures, ∀ d ∈ kv.2.data, d.row.shock_name ≠ S) ∧
    (∀ g ∈ out.html, ∀ d ∈ g.data, d.row.shock_name ≠ S) ∧
    (∀ g ∈ out.pdf, ∀ d ∈ g.data, d.row.shock_name ≠ S) ∧
    (∀ L sp, (S, L, sp) ∈ shockTriples cfg →
      (∀ t ∈ shockTriples cfg, t.2.1 = L → t.1 = S) →
      ∀ kv ∈ out.figures, kv.2.label ≠ L) := by
  obtain ⟨st, hb, hne, rfl⟩ := (runScript_ok_iff cfg fs ev out).mp hrun
  obtain ⟨hdf, hpages, hfig, hreport, hhtml, hpdf, _, hstate⟩ := scriptOutOf_fields ev st
  obtain ⟨_, _, _, hprops, _, _⟩ := build_spec cfg fs st hb
  have hrowsS : ∀ r ∈ st.rows, r.shock_name ≠ S := by
    intro r hr hrS
    obtain ⟨_, _, _, _, t, _, ht1, _, htex, _⟩ := hprops r hr
    rw [hrS] at ht1
    rw [← ht1] at htex
    rw [htex] at hex
    cases hex
  have hfigdata : ∀ kv ∈ (scriptOutOf ev st).figures, ∀ d ∈ kv.2.data,
      d.row.shock_name ≠ S := by
    intro kv hkv d hd
    rw [hfig] at hkv
    obtain ⟨lab, _, k, chunk, _, rfl⟩ := (mem_figuresList _ _ kv).mp hkv
    have hd' : d ∈ dfRows ev st.rows := (List.mem_filter.mp hd).1
    obtain ⟨tt, _, r, hr, rfl⟩ := (mem_dfRows ev st.rows d).mp hd'
    exact hrowsS r hr
  refine ⟨?_, hfigdata, ?_, ?_, ?_⟩
  · rw [hstate]
    exact hrowsS
  · intro g hg d hd
    rw [hhtml, hreport] at hg
    obtain ⟨kv, hkv, rfl⟩ := List.mem_map.mp hg
    exact hfigdata kv hkv d hd
  · intro g hg d hd
    rw [hpdf, hreport] at hg
    obtain ⟨kv, hkv, rfl⟩ := List.mem_map.mp hg
    exact hfigdata kv hkv d hd
  · intro L sp hSL huniq kv hkv hlab
    rw [hfig] at hkv
    obtain ⟨lab, hlabmem, k, chunk, _, rfl⟩ := (mem_figuresList _ _ kv).mp hkv
    have hlabL : lab = L := hlab
    have hmem : lab ∈ (dfRows ev st.rows).map fun d => d.row.shock_label :=
      (uniqueFirst_mem_iff _ _).mp hlabmem
    obtain ⟨d, hd, hdl⟩ := List.mem_map.mp hmem
    obtain ⟨tt, _, r, hr, rfl⟩ := (mem_dfRows ev st.rows d).mp hd
    obtain ⟨_, _, _, _, t, htmem, ht1, ht2, htex, _⟩ := hprops r hr
    have htL : t.2.1 = L := by
      rw [← ht2, hdl, hlabL]
    have htS : t.1 = S := huniq t htmem htL
    rw [htS] at htex
    rw [htex] at hex
    cases hex

/-- Witness for C2 on the example configuration: shock `"b"` with a missing
file leaves no trace in rows, figures, or reports. -/
theorem missing_files_skip_total_witness :
    shock_files_exist cfgEx fsEx "b" = false ∧
    ((∀ r ∈ outEx.state.rows, r.shock_name ≠ "b") ∧
    (∀ kv ∈ outEx.figures, ∀ d ∈ kv.2.data, d.row.shock_name ≠ "b") ∧
    (∀ g ∈ outEx.html, ∀ d ∈ g.data, d.row.shock_name ≠ "b") ∧
    (∀ g ∈ outEx.pdf, ∀ d ∈ g.data, d.row.shock_name ≠ "b") ∧
    (∀ L sp, ("b", L, sp) ∈ shockTriples cfgEx →
      (∀ t ∈ shockTriples cfgEx, t.2.1 = L → t.1 = "b") →
      ∀ kv ∈ outEx.figures, kv.2.label ≠ L)) :=
  ⟨by decide, missing_files_skip_total cfgEx fsEx evEx outEx rfl "b" (by decide)⟩

/-- Claim C5: for every shock whose required files are all present, the
number of figures generated for its display label equals the number of
pagination chunks of the variable-index list, i.e.
`ceil(#variables / (columns_pr_page * rows_pr_page))` — one figure per
(shock, page) pair. -/
theorem figures_per_shock {G : Type} (cfg : Config G) (fs : String → Bool)
    (ev : Row G → Nat → Int) (out : ScriptOut G)
    (hrun : runScript cfg fs ev = Except.ok out)
    (S L : String) (sp : ShockPlotInfo G) (ht : (S, L, sp) ∈ shockTriples cfg)
    (htex : shock_files_exist cfg fs S = true)
    (hlen1 : cfg.get_variable_functions.length = (variable_labels_init cfg).length)
    (hlen2 : cfg.operators.length = (variable_labels_init cfg).length) :
    (out.figures.filter fun kv => decide (kv.2.label = L)).length = out.pages.length ∧
    out.pages.length =
      ((variable_labels_init cfg).length + plots_pr_page - 1) / plots_pr_page := by
  obtain ⟨st, hb, hne, rfl⟩ := (runScript_ok_iff cfg fs ev out).mp hrun
  obtain ⟨hdf, hpages, hfig, _, _, _, _, _⟩ := scriptOutOf_fields ev st
  obtain ⟨hpos, hunique⟩ := rows_idx_unique cfg fs st hb hne
  have hminlen : minLen cfg = (variable_labels_init cfg).length := by
    unfold minLen
    rw [hlen1, hlen2, Nat.min_self, Nat.min_self]
  have hL : L ∈ uniqueFirst ((dfRows ev st.rows).map fun d => d.row.shock_label) := by
    rw [uniqueFirst_dfRows_proj, uniqueFirst_mem_iff]
    obtain ⟨r, hr, _, hrl, _⟩ :=
      surviving_shock_rows cfg fs st hb hne (S, L, sp) ht htex 0 hpos
    exact List.mem_map.mpr ⟨r, hr, hrl⟩
  have hpages' : (scriptOutOf ev st).pages =
      divide_chunks (List.range (minLen cfg)) plots_pr_page := by
    rw [hpages, uniqueFirst_dfRows_proj, hunique]
  constructor
  · rw [hfig, figuresList_count_label _ _ L hL]
  · rw [hpages', divide_chunks_length plots_pr_page (by decide) _
      (by simp [List.range_eq_nil]; omega), List.length_range, hminlen]

/-- Witness for C5: shock `"a"` with both files present gets one figure (two
variables fit on one 18-slot page). -/
theorem figures_per_shock_witness :
    (("a", "A", (⟨"ha", "ha", 10, "pq"⟩ : ShockPlotInfo Nat)) ∈ shockTriples cfgEx) ∧
    shock_files_exist cfgEx fsEx "a" = true ∧
    ((outEx.figures.filter fun kv => decide (kv.2.label = "A")).length =
      outEx.pages.length ∧
    outEx.pages.length =
      ((variable_labels_init cfgEx).length + plots_pr_page - 1) / plots_pr_page) :=
  ⟨by decide, by decide,
    figures_per_shock cfgEx fsEx evEx outEx rfl "a" "A" ⟨"ha", "ha", 10, "pq"⟩
      (by decide) (by decide) (by decide) (by decide)⟩

/-- Claim C8: figures are produced per unique shock display label, keyed by
`<label> <page>`, and each figure's data is selected from the melted frame by
label alone (restricted to the page's variable indices); hence two distinct
configured shock names sharing one display label are merged: the label gets
exactly one figure per page and each of its figures contains data of both
shocks, instead of separate figures per shock name. -/
theorem figures_by_label {G : Type} (cfg : Config G) (fs : String → Bool)
    (ev : Row G → Nat → Int) (out : ScriptOut G)
    (hrun : runScript cfg fs ev = Except.ok out)
    (S1 S2 L : String) (sp1 sp2 : ShockPlotInfo G)
    (h1 : (S1, L, sp1) ∈ shockTriples cfg) (h2 : (S2, L, sp2) ∈ shockTriples cfg)
    (hS : S1 ≠ S2)
    (hex1 : shock_files_exist cfg fs S1 = true)
    (hex2 : shock_files_exist cfg fs S2 = true) :
    (∀ kv ∈ out.figures, ∃ k chunk, out.pages[k]? = some chunk ∧
      kv.2.page = k + 1 ∧ kv.1 = figureKey kv.2.label (k + 1) ∧
      kv.2.data = out.df.filter fun d =>
        decide (d.row.shock_label = kv.2.label ∧ d.row.variable_index ∈ chunk)) ∧
    (out.figures.filter fun kv => decide (kv.2.label = L)).length =
      out.pages.length ∧
    (∀ kv ∈ out.figures, kv.2.label = L →
      (∃ d ∈ kv.2.data, d.row.shock_name = S1) ∧
      (∃ d ∈ kv.2.data, d.row.shock_name = S2)) := by
  obtain ⟨st, hb, hne, rfl⟩ := (runScript_ok_iff cfg fs ev out).mp hrun
  obtain ⟨hdf, hpages, hfig, _, _, _, _, _⟩ := scriptOutOf_fields ev st
  obtain ⟨hpos, hunique⟩ := rows_idx_unique cfg fs st hb hne
  have hpages' : (scriptOutOf ev st).pages =
      divide_chunks (List.range (minLen cfg)) plots_pr_page := by
    rw [hpages, uniqueFirst_dfRows_proj, hunique]
  have hL : L ∈ uniqueFirst ((dfRows ev st.rows).map fun d => d.row.shock_label) := by
    rw [uniqueFirst_dfRows_proj, uniqueFirst_mem_iff]
    obtain ⟨r, hr, _, hrl, _⟩ :=
      surviving_shock_rows cfg fs st hb hne (S1, L, sp1) h1 hex1 0 hpos
    exact List.mem_map.mpr ⟨r, hr, hrl⟩
  refine ⟨?_, ?_, ?_⟩
  · intro kv hkv
    rw [hfig] at hkv
    obtain ⟨lab, _, k, chunk, hk, rfl⟩ := (mem_figuresList _ _ kv).mp hkv
    exact ⟨k, chunk, hk, rfl, rfl, by rw [hdf]⟩
  · rw [hfig, figuresList_count_label _ _ L hL]
  · intro kv hkv hlab
    rw [hfig] at hkv
    obtain ⟨lab, _, k, chunk, hk, rfl⟩ := (mem_figuresList _ _ kv).mp hkv
    have hlabL : lab = L := hlab
    subst lab
    have hchunkmem : chunk ∈ (scriptOutOf ev st).pages := List.getElem?_mem hk
    rw [hpages'] at hchunkmem
    have hchunkne : chunk ≠ [] :=
      divide_chunks_mem_ne_nil plots_pr_page (by decide)
        (List.range (minLen cfg)).length _ (le_refl _) chunk hchunkmem
    obtain ⟨i0, hi0⟩ := List.exists_mem_of_ne_nil chunk hchunkne
    have hi0lt : i0 < minLen cfg := by
      have := divide_chunks_mem_subset plots_pr_page (by decide) _ chunk hchunkmem i0 hi0
      exact List.mem_range.mp this
    obtain ⟨y0, hy0⟩ := List.exists_mem_of_ne_nil years years_ne_nil
    constructor
    · obtain ⟨r, hr, hrn, hrl, hri⟩ :=
        surviving_shock_rows cfg fs st hb hne (S1, L, sp1) h1 hex1 i0 hi0lt
      refine ⟨⟨y0, ev r y0, r⟩, ?_, hrn⟩
      apply List.mem_filter.mpr
      refine ⟨(mem_dfRows ev st.rows _).mpr ⟨y0, hy0, r, hr, rfl⟩, ?_⟩
      simp only [decide_eq_true_eq]
      exact ⟨hrl, by rw [hri]; exact hi0⟩
    · obtain ⟨r, hr, hrn, hrl, hri⟩ :=
        surviving_shock_rows cfg fs st hb hne (S2, L, sp2) h2 hex2 i0 hi0lt
      refine ⟨⟨y0, ev r y0, r⟩, ?_, hrn⟩
      apply List.mem_filter.mpr
      refine ⟨(mem_dfRows ev st.rows _).mpr ⟨y0, hy0, r, hr, rfl⟩, ?_⟩
      simp only [decide_eq_true_eq]
      exact ⟨hrl, by rw [hri]; exact hi0⟩

/-- Witness for C8: with both example shocks renamed to share label `"A"` and
all files present, the single label gets one figure per page containing both
shocks' data. -/
theorem figures_by_label_witness :
    ("a" : String) ≠ "b" ∧
    shock_files_exist cfgEx2 fsEx2 "a" = true ∧
    shock_files_exist cfgEx2 fsEx2 "b" = true ∧
    ((∀ kv ∈ outEx2.figures, ∃ k chunk, outEx2.pages[k]? = some chunk ∧
      kv.2.page = k + 1 ∧ kv.1 = figureKey kv.2.label (k + 1) ∧
      kv.2.data = outEx2.df.filter fun d =>
        decide (d.row.shock_label = kv.2.label ∧ d.row.variable_index ∈ chunk)) ∧
    (outEx2.figures.filter fun kv => decide (kv.2.label = "A")).length =
      outEx2.pages.length ∧
    (∀ kv ∈ outEx2.figures, kv.2.label = "A" →
      (∃ d ∈ kv.2.data, d.row.shock_name = "a") ∧
      (∃ d ∈ kv.2.data, d.row.shock_name = "b"))) :=
  ⟨by decide, by decide, by decide,
    figures_by_label cfgEx2 fsEx2 evEx outEx2 rfl "a" "b" "A"
      ⟨"ha", "ha", 10, "pq"⟩ ⟨"hb", "hb", 11, "pm"⟩ (by decide) (by decide)
      (by decide) (by decide) (by decide)⟩

end StdShocks

